import Mathlib

/-!
# Verification of `zmq::shared_message_memory_allocator`

Shallow embedding of `src/decoder_allocators.cpp` (libzmq): the allocator that
backs a decoder's receive buffer with a reference-counted heap block.

The C++ object is a record of its five data members; the process heap is an
explicit value threaded through every operation.  An operation either returns
or stops with a `Fault` (a failed assertion, or undefined behaviour such as an
access through a null or dangling pointer).

Addresses are natural numbers and `0` is `NULL`.  The base of a block and the
payload pointer `buf + sizeof (counter)` inside it are kept as they are; the
pointer `msg_refcnt`, which the source forms from `max_size` without regard to
the size of the block, is reduced modulo `2 ^ 64` as 64-bit pointer arithmetic
does.  `size_t` arithmetic is taken modulo `2 ^ 64`, the counter
`atomic_counter_t` holds a value modulo `2 ^ 32`, and `double` is IEEE 754
binary64 with round to nearest, ties to even.

Sequences of operations are runs of `step`; concurrent callbacks are
interleavings of their accesses to shared memory, the atomic subtraction being
one access.

What the file does not contain is a parameter, gathered in `Env`: the size of
a counter object, the threshold `msg_t::max_vsm_size`, and the address that
`malloc` returns.  The theorems assume of `malloc` only what the C standard
promises (`Env.malloc_fresh`), and, where a call has to return, that memory
does not run out (`Env.malloc_total`).
-/

namespace zmq

/-! ## Faults -/

/-- Ways in which an execution stops instead of returning. -/
inductive Fault where
  /-- a failed `zmq_assert` or `alloc_assert`: the process aborts -/
  | assertion
  /-- undefined behaviour: access through a null, dangling or foreign pointer,
  or a floating point value converted out of range -/
  | undefined
  deriving DecidableEq, Repr

deriving instance DecidableEq for Except

/-! ## Machine arithmetic -/

/-- Number of values of `size_t`. -/
def SIZE_MOD : Nat := 2 ^ 64

/-- Reduction of a natural number to a `size_t` value. -/
def to_size_t (n : Nat) : Nat := n % SIZE_MOD

/-- Reduction of an address to the value of a 64-bit pointer: what pointer
arithmetic yields when the sum leaves the address space. -/
def to_pointer (n : Nat) : Nat := n % SIZE_MOD

/-- Number of values of `atomic_counter_t::integer_t`. -/
def INTEGER_MOD : Nat := 2 ^ 32

/-! ## Binary64 arithmetic

The one-argument constructor computes in `double`.  A finite nonnegative
`double` is kept as an exact value `mant * 2 ^ exp`; every operation returns
the correctly rounded result (round to nearest, ties to even, 53 significant
bits).  The values that arise from `size_t` operands are far from the overflow
and subnormal ranges of binary64, which are not modelled.
-/

/-- A finite nonnegative value of type `double` (IEEE 754 binary64), namely
`mant * 2 ^ exp`. -/
structure double where
  mant : Nat
  exp : Int
  deriving DecidableEq, Repr

/-- The integer nearest to `a / b`, ties to the even one. -/
def div_rne (a b : Nat) : Nat :=
  if 2 * (a % b) < b then a / b
  else if b < 2 * (a % b) then a / b + 1
  else if a / b % 2 = 0 then a / b else a / b + 1

/-- Position of the highest set bit of `n`, found in at most `fuel` halvings. -/
def log2_fuel : Nat → Nat → Nat
  | 0, _ => 0
  | fuel + 1, n => if n < 2 then 0 else log2_fuel fuel (n / 2) + 1

/-- The integer part of the binary logarithm of `n > 0`. -/
def floor_log2 (n : Nat) : Nat := log2_fuel n n

/-- The exponent `e` of the binary64 nearest to `a / b`, for `a, b > 0`:
the one with `2 ^ 52 ≤ a / (b * 2 ^ e) < 2 ^ 53`. -/
def double_exponent (a b : Nat) : Int :=
  let d : Int := (floor_log2 a : Int) - (floor_log2 b : Int) - 52
  if b * 2 ^ 52 * 2 ^ d.toNat ≤ a * 2 ^ (-d).toNat then d else d - 1

/-- The binary64 nearest to the rational `a / b` (round to nearest, ties to
even), for `b > 0`. -/
def round53 (a b : Nat) : double :=
  if a = 0 then ⟨0, 0⟩
  else ⟨div_rne (a * 2 ^ (-(double_exponent a b)).toNat)
          (b * 2 ^ (double_exponent a b).toNat), double_exponent a b⟩

/-- Conversion `static_cast<double> (n)` of an unsigned integer: exact below
`2 ^ 53`, rounded above. -/
def to_double (n : Nat) : double :=
  if n < 2 ^ 53 then ⟨n, 0⟩ else round53 n 1

namespace double

/-- Division `x / y`; `none` stands for an infinity or a NaN. -/
def div (x y : double) : Option double :=
  if y.mant = 0 then none
  else some (round53 (x.mant * 2 ^ (x.exp - y.exp).toNat)
                     (y.mant * 2 ^ (y.exp - x.exp).toNat))

/-- The value of `std::ceil (x)`, an integer. -/
def ceil (x : double) : Nat :=
  (x.mant * 2 ^ x.exp.toNat + 2 ^ (-x.exp).toNat - 1) / 2 ^ (-x.exp).toNat

end double

/-! ## The atomic counter -/

/-- Modelled from the spec: `atomic_counter_t` is declared in
`atomic_counter.hpp`, which is not under src/.  The spec describes the
buffer-level counter as an atomic unsigned integer stored at the start of the
allocation; libzmq declares its value as `uint32_t` (`integer_t`).  A counter
is the value it currently holds. -/
structure atomic_counter_t where
  value : Nat
  deriving DecidableEq, Repr

namespace atomic_counter_t

/-- Modelled from the spec: `atomic_counter_t (integer_t value_)`, the
constructor used by the placement `new` in `allocate`. -/
def mk_counter (value_ : Nat) : atomic_counter_t := ⟨value_ % INTEGER_MOD⟩

/-- Modelled from the spec: `set (value_)` stores the value. -/
def set (_c : atomic_counter_t) (value_ : Nat) : atomic_counter_t :=
  ⟨value_ % INTEGER_MOD⟩

/-- Modelled from the spec: `add (increment_)` atomically adds to the counter
and returns the value held before. -/
def add (c : atomic_counter_t) (increment_ : Nat) : Nat × atomic_counter_t :=
  (c.value, ⟨(c.value + increment_) % INTEGER_MOD⟩)

/-- Modelled from the spec: `sub (decrement)` atomically subtracts from the
counter (unsigned, wrapping) and returns `false` exactly when the counter
dropped to zero. -/
def sub (c : atomic_counter_t) (decrement : Nat) : Bool × atomic_counter_t :=
  let v := (c.value + (INTEGER_MOD - decrement % INTEGER_MOD)) % INTEGER_MOD
  (v != 0, ⟨v⟩)

end atomic_counter_t

/-! ## The heap -/

/-- A live heap block: the number of bytes that were requested from `malloc`
and the counter object living at its base address (`none` while no counter
object has been constructed there, or after its destructor ran). -/
structure Block where
  size : Nat
  counter : Option atomic_counter_t
  deriving DecidableEq, Repr

/-- What the C library was asked to do, most recent event first. -/
inductive HeapEvent where
  | malloc (addr size : Nat)
  | free (addr : Nat)
  deriving DecidableEq, Repr

/-- Binding of a base address in a list of live blocks. -/
def lookup (p : Nat) : List (Nat × Block) → Option Block
  | [] => none
  | (a, b) :: t => if a = p then some b else lookup p t

/-- Replace the block bound to `p` (nothing happens when `p` is unbound). -/
def store (p : Nat) (b : Block) : List (Nat × Block) → List (Nat × Block)
  | [] => []
  | (a, x) :: t => if a = p then (a, b) :: t else (a, x) :: store p b t

/-- Remove every binding of `p`. -/
def erase (p : Nat) : List (Nat × Block) → List (Nat × Block)
  | [] => []
  | (a, x) :: t => if a = p then erase p t else (a, x) :: erase p t

/-- The process heap: the live blocks by base address, and the history of
`malloc` and `free` calls. -/
structure Heap where
  blocks : List (Nat × Block)
  log : List HeapEvent
  deriving DecidableEq, Repr

/-- What is fixed outside `decoder_allocators.cpp`. -/
structure Env where
  /-- the value of `sizeof (zmq::atomic_counter_t)` -/
  sizeof_counter : Nat
  /-- the constant `msg_t::max_vsm_size`, declared in `msg.hpp` -/
  max_vsm_size : Nat
  /-- the address `malloc (n)` returns when called in heap `h`; `0` is `NULL` -/
  malloc : Heap → Nat → Nat

namespace Heap

/-- The empty heap. -/
def empty : Heap := ⟨[], []⟩

/-- The live block with base address `p`, if any. -/
def find (h : Heap) (p : Nat) : Option Block := lookup p h.blocks

/-- Whether `p` is the base address of a live block. -/
def live (h : Heap) (p : Nat) : Bool := (h.find p).isSome

/-- The value of the counter object at the base of the live block `p`. -/
def count (h : Heap) (p : Nat) : Option Nat :=
  match h.find p with
  | some ⟨_, some c⟩ => some c.value
  | _ => none

/-- Addresses passed to `free` so far that released a block. -/
def freed (h : Heap) : List Nat :=
  h.log.filterMap fun e => match e with
    | HeapEvent.free a => some a
    | HeapEvent.malloc _ _ => none

/-- Call of `malloc (n)` followed by `alloc_assert`: a `NULL` result aborts. -/
def malloc (E : Env) (h : Heap) (n : Nat) : Except Fault (Nat × Heap) :=
  let p := E.malloc h n
  if p = 0 then Except.error Fault.assertion
  else Except.ok (p, ⟨(p, ⟨n, none⟩) :: h.blocks, HeapEvent.malloc p n :: h.log⟩)

/-- Call of `free (p)`: nothing for `NULL`, undefined unless `p` is live. -/
def free (h : Heap) (p : Nat) : Except Fault Heap :=
  if p = 0 then Except.ok h
  else match h.find p with
    | some _ => Except.ok ⟨erase p h.blocks, HeapEvent.free p :: h.log⟩
    | none => Except.error Fault.undefined

/-- Placement `new (p) atomic_counter_t (v)`: undefined unless `p` is the base
of a live block with room for a counter object. -/
def construct (E : Env) (h : Heap) (p : Nat) (v : Nat) : Except Fault Heap :=
  if p = 0 then Except.error Fault.undefined
  else match h.find p with
    | some b =>
        if E.sizeof_counter ≤ b.size then
          Except.ok ⟨store p ⟨b.size, some (atomic_counter_t.mk_counter v)⟩ h.blocks, h.log⟩
        else Except.error Fault.undefined
    | none => Except.error Fault.undefined

/-- Explicit destructor call `c->~atomic_counter_t ()`. -/
def destroy (h : Heap) (p : Nat) : Except Fault Heap :=
  if p = 0 then Except.error Fault.undefined
  else match h.find p with
    | some ⟨n, some _⟩ => Except.ok ⟨store p ⟨n, none⟩ h.blocks, h.log⟩
    | _ => Except.error Fault.undefined

/-- Access to the counter object at address `p`, as
`reinterpret_cast<atomic_counter_t *> (p)` followed by a member call. -/
def counter (h : Heap) (p : Nat) : Except Fault (Nat × atomic_counter_t) :=
  if p = 0 then Except.error Fault.undefined
  else match h.find p with
    | some ⟨n, some c⟩ => Except.ok (n, c)
    | _ => Except.error Fault.undefined

/-- The call `c->sub (d)` on the counter at `p`. -/
def sub (h : Heap) (p : Nat) (d : Nat) : Except Fault (Bool × Heap) :=
  match h.counter p with
  | Except.ok (n, c) =>
      Except.ok ((c.sub d).1, ⟨store p ⟨n, some (c.sub d).2⟩ h.blocks, h.log⟩)
  | Except.error e => Except.error e

/-- The call `c->add (d)` on the counter at `p`. -/
def add (h : Heap) (p : Nat) (d : Nat) : Except Fault (Nat × Heap) :=
  match h.counter p with
  | Except.ok (n, c) =>
      Except.ok ((c.add d).1, ⟨store p ⟨n, some (c.add d).2⟩ h.blocks, h.log⟩)
  | Except.error e => Except.error e

/-- The call `c->set (v)` on the counter at `p`. -/
def set (h : Heap) (p : Nat) (v : Nat) : Except Fault Heap :=
  match h.counter p with
  | Except.ok (n, c) => Except.ok ⟨store p ⟨n, some (c.set v)⟩ h.blocks, h.log⟩
  | Except.error e => Except.error e

end Heap

/-! ## The allocator -/

/-- The data members of `zmq::shared_message_memory_allocator`. -/
structure shared_message_memory_allocator where
  buf : Nat
  bufsize : Nat
  max_size : Nat
  msg_refcnt : Nat
  maxCounters : Nat
  deriving DecidableEq, Repr

namespace shared_message_memory_allocator

/-- The constructor taking the buffer size only: `maxCounters` is
`std::ceil (static_cast<double> (max_size) / static_cast<double>
(msg_t::max_vsm_size))` converted to `size_t`, which is undefined when the
value is not finite or does not fit.  The members are initialised in the order
of the initialiser list, `max_size` before `maxCounters`. -/
def mk1 (E : Env) (bufsize_ : Nat) : Except Fault shared_message_memory_allocator :=
  match (to_double bufsize_).div (to_double E.max_vsm_size) with
  | none => Except.error Fault.undefined
  | some q =>
    if q.ceil < SIZE_MOD then
      Except.ok { buf := 0, bufsize := 0, max_size := bufsize_, msg_refcnt := 0,
                  maxCounters := q.ceil }
    else Except.error Fault.undefined

/-- The constructor taking the buffer size and the number of counters. -/
def mk2 (bufsize_ maxMessages : Nat) : shared_message_memory_allocator :=
  { buf := 0, bufsize := 0, max_size := bufsize_, msg_refcnt := 0,
    maxCounters := maxMessages }

/-- The size `allocate` requests from `malloc`, computed in `size_t`. -/
def allocationsize (E : Env) (a : shared_message_memory_allocator) : Nat :=
  to_size_t (to_size_t (a.max_size + E.sizeof_counter)
    + to_size_t (a.maxCounters * E.sizeof_counter))

/-- Member `release ()`: hand the buffer to the caller.  The heap is not
accessed. -/
def release (a : shared_message_memory_allocator) (h : Heap) :
    Nat × shared_message_memory_allocator × Heap :=
  let b := a.buf
  (b, { a with buf := 0, bufsize := 0, msg_refcnt := 0 }, h)

/-- Member `allocate ()`: the buffer for the next read. -/
def allocate (E : Env) (a : shared_message_memory_allocator) (h : Heap) :
    Except Fault (Nat × shared_message_memory_allocator × Heap) := do
  -- if (buf) { if (c->sub (1)) release (); }
  let (a1, h1) ←
    if a.buf ≠ 0 then do
      let (still_used, h1) ← h.sub a.buf 1
      if still_used then pure (release a h1).2 else pure (a, h1)
    else pure (a, h)
  -- if (!buf) { malloc; alloc_assert; placement new } else { c->set (1); }
  let (a2, h2) ←
    if a1.buf = 0 then do
      let (p, h2) ← Heap.malloc E h1 (allocationsize E a1)
      let h3 ← h2.construct E p 1
      pure ({ a1 with buf := p }, h3)
    else do
      let h2 ← h1.set a1.buf 1
      pure (a1, h2)
  -- bufsize = max_size; msg_refcnt = buf + sizeof (atomic_counter_t) + max_size,
  -- a sum of 64-bit pointer arithmetic
  let a3 := { a2 with bufsize := a2.max_size,
                      msg_refcnt := to_pointer (a2.buf + E.sizeof_counter + a2.max_size) }
  pure (a3.buf + E.sizeof_counter, a3, h2)

/-- Member `deallocate ()`: free the buffer and clear the fields. -/
def deallocate (a : shared_message_memory_allocator) (h : Heap) :
    Except Fault (shared_message_memory_allocator × Heap) := do
  let h1 ← h.free a.buf
  pure ({ a with buf := 0, bufsize := 0, msg_refcnt := 0 }, h1)

/-- Member `inc_ref ()`: one more holder of the current buffer. -/
def inc_ref (a : shared_message_memory_allocator) (h : Heap) :
    Except Fault Heap := do
  let (_, h1) ← h.add a.buf 1
  pure h1

/-- Static member `call_dec_ref (data, hint)`: the callback run when a message that
shares the buffer `hint` is closed. -/
def call_dec_ref (hint : Nat) (h : Heap) : Except Fault Heap := do
  if hint = 0 then throw Fault.assertion
  let (still_used, h1) ← h.sub hint 1
  if !still_used then
    let h2 ← h1.destroy hint
    h2.free hint
  else pure h1

/-- The data members after `allocate` settled on the buffer at `p`: the last
three statements of `allocate`. -/
def with_buf (E : Env) (a : shared_message_memory_allocator) (p : Nat) :
    shared_message_memory_allocator :=
  { a with buf := p, bufsize := a.max_size,
           msg_refcnt := to_pointer (p + E.sizeof_counter + a.max_size) }

/-- Member `size ()`. -/
def size (a : shared_message_memory_allocator) : Nat := a.bufsize

/-- Member `data ()`. -/
def data (E : Env) (a : shared_message_memory_allocator) : Nat :=
  a.buf + E.sizeof_counter

/-- The call `inc_ref ()` made `k` times in a row. -/
def inc_refs : Nat → shared_message_memory_allocator → Heap → Except Fault Heap
  | 0, _, h => Except.ok h
  | k + 1, a, h =>
    match inc_ref a h with
    | Except.ok h1 => inc_refs k a h1
    | Except.error e => Except.error e

/-- The callback `call_dec_ref (data, hint)` run `k` times in a row. -/
def call_dec_refs : Nat → Nat → Heap → Except Fault Heap
  | 0, _, h => Except.ok h
  | k + 1, hint, h =>
    match call_dec_ref hint h with
    | Except.ok h1 => call_dec_refs k hint h1
    | Except.error e => Except.error e

/-- The scenario of the spec: on a heap without blocks, `allocate`, `k` calls
of `inc_ref`, `allocate` again, then `j` runs of the callback on the base
pointer of the first buffer.  Returns that base pointer and the final state. -/
def scenario (E : Env) (a0 : shared_message_memory_allocator) (k j : Nat) :
    Except Fault (Nat × shared_message_memory_allocator × Heap) :=
  match allocate E a0 Heap.empty with
  | Except.error e => Except.error e
  | Except.ok (_, a1, h1) =>
    match inc_refs k a1 h1 with
    | Except.error e => Except.error e
    | Except.ok h2 =>
      match allocate E a1 h2 with
      | Except.error e => Except.error e
      | Except.ok (_, a2, h3) =>
        match call_dec_refs j a1.buf h3 with
        | Except.error e => Except.error e
        | Except.ok h4 => Except.ok (a1.buf, a2, h4)

end shared_message_memory_allocator

/-! ## Assumptions on the C library -/

/-- What `malloc` returns, unless it is `NULL`, is not a block that is live. -/
def Env.malloc_fresh (E : Env) : Prop :=
  ∀ h n, E.malloc h n ≠ 0 → h.find (E.malloc h n) = none

/-- Memory never runs out: `malloc` does not return `NULL`. -/
def Env.malloc_total (E : Env) : Prop := ∀ h n, E.malloc h n ≠ 0

/-! ## A concrete environment -/

/-- One past the highest address used by a live block. -/
def top : List (Nat × Block) → Nat
  | [] => 0
  | (a, b) :: t => max (a + b.size) (top t)

/-- A `malloc` that places the new block 16 bytes above every live block. -/
def bump_malloc (h : Heap) (_n : Nat) : Nat := top h.blocks + 16

/-- A 64-bit build: counters of 4 bytes, the threshold of the spec's scenario. -/
def env64 : Env := { sizeof_counter := 4, max_vsm_size := 32, malloc := bump_malloc }

open shared_message_memory_allocator

/-! ## Sequences of operations -/

/-- The allocator object together with the heap of the process. -/
abbrev State := shared_message_memory_allocator × Heap

/-- The operations that the decoder and the messages apply: the four member
functions that change something, and the callback with its `hint`. -/
inductive Op where
  | allocate
  | inc_ref
  | release
  | deallocate
  | call_dec_ref (hint : Nat)
  deriving DecidableEq, Repr

/-- One operation applied to the allocator and the heap; the value that
`allocate` or `release` returns is dropped. -/
def step (E : Env) : Op → State → Except Fault State
  | Op.allocate, (a, h) =>
    match allocate E a h with
    | Except.ok (_, a1, h1) => Except.ok (a1, h1)
    | Except.error e => Except.error e
  | Op.inc_ref, (a, h) =>
    match inc_ref a h with
    | Except.ok h1 => Except.ok (a, h1)
    | Except.error e => Except.error e
  | Op.release, (a, h) => Except.ok (release a h).2
  | Op.deallocate, (a, h) => deallocate a h
  | Op.call_dec_ref hint, (a, h) =>
    match call_dec_ref hint h with
    | Except.ok h1 => Except.ok (a, h1)
    | Except.error e => Except.error e

/-- Operations applied one after the other, stopping at the first fault. -/
def run (E : Env) : List Op → State → Except Fault State
  | [], s => Except.ok s
  | op :: ops, s =>
    match step E op s with
    | Except.ok s1 => run E ops s1
    | Except.error e => Except.error e

/-- The states reached from `s0` by operations that return, each of them
allowed, by `allowed`, in the state it is applied to. -/
inductive Reach (E : Env) (allowed : Op → State → Prop) (s0 : State) : State → Prop
  | init : Reach E allowed s0 s0
  | next {s s1 : State} {op : Op} : Reach E allowed s0 s → allowed op s →
      step E op s = Except.ok s1 → Reach E allowed s0 s1

/-- No restriction on the operations. -/
def any_op (_op : Op) (_s : State) : Prop := True

/-- The callback is not run on the current buffer of the allocator while the
counter of that buffer is 1, that is, while the allocator is its only holder. -/
def keeps_own_hold (op : Op) (s : State) : Prop :=
  ∀ hint, op = Op.call_dec_ref hint → hint = s.1.buf → s.2.count hint ≠ some 1

/-- The block has a counter object whose value is between 1 and `2 ^ 32 - 1`. -/
def Block.positive (b : Block) : Bool :=
  match b.counter with
  | some c => decide (1 ≤ c.value ∧ c.value < INTEGER_MOD)
  | none => false

/-- Every live block has a counter of at least 1. -/
def Heap.counters_positive (h : Heap) : Prop := ∀ x ∈ h.blocks, x.2.positive = true

/-- The pointer that the operation dereferences or frees is as the operation
needs it: `buf` null or live for `allocate` and `deallocate`, `buf` live for
`inc_ref`, the hint live for the callback. -/
def pointer_ok : Op → State → Prop
  | Op.allocate, (a, h) => a.buf = 0 ∨ h.live a.buf = true
  | Op.inc_ref, (a, h) => a.buf ≠ 0 ∧ h.live a.buf = true
  | Op.release, _ => True
  | Op.deallocate, (a, h) => a.buf = 0 ∨ h.live a.buf = true
  | Op.call_dec_ref hint, (_, h) => hint ≠ 0 ∧ h.live hint = true

/-! ## Concurrent callbacks

Several threads run `call_dec_ref` on the same hint.  An invocation is cut at
its accesses to shared memory: the atomic `c->sub (1)`, the destructor call,
and `free`.  A schedule, a list of thread numbers, says which invocation makes
its next access; every interleaving of the invocations is a schedule.
-/

/-- Where an invocation of `call_dec_ref (data, hint)` stands: before
`c->sub (1)`; after `c->sub (1)` returned false and before the destructor
call; after the destructor call and before `free (buf)`; returned, having
called `free` or not. -/
inductive dec_ref_pc where
  | start
  | zero_seen
  | destroyed
  | returned (freed : Bool)
  deriving DecidableEq, Repr

/-- Modelled from the spec: `atomic_counter_t::sub`, declared outside src/,
subtracts and tests in one atomic step.  The next access to shared memory of
an invocation of `call_dec_ref` that stands at `pc`, with the position it
reaches; `zmq_assert (hint)` and the casts touch nothing shared and belong to
the first step.  An invocation that has returned stays where it is. -/
def dec_ref_step (hint : Nat) : dec_ref_pc → Heap → Except Fault (dec_ref_pc × Heap)
  | dec_ref_pc.start, h =>
    if hint = 0 then Except.error Fault.assertion
    else
      match h.sub hint 1 with
      | Except.ok (still_used, h1) =>
          Except.ok (if still_used then dec_ref_pc.returned false
                     else dec_ref_pc.zero_seen, h1)
      | Except.error e => Except.error e
  | dec_ref_pc.zero_seen, h =>
    match h.destroy hint with
    | Except.ok h1 => Except.ok (dec_ref_pc.destroyed, h1)
    | Except.error e => Except.error e
  | dec_ref_pc.destroyed, h =>
    match h.free hint with
    | Except.ok h1 => Except.ok (dec_ref_pc.returned true, h1)
    | Except.error e => Except.error e
  | dec_ref_pc.returned f, h => Except.ok (dec_ref_pc.returned f, h)

/-- The invocations `ts` of `call_dec_ref` on `hint`, one per thread, advanced
in the order of the schedule; a number that names no thread is skipped. -/
def interleave (hint : Nat) :
    List Nat → List dec_ref_pc × Heap → Except Fault (List dec_ref_pc × Heap)
  | [], s => Except.ok s
  | i :: sched, (ts, h) =>
    match ts[i]? with
    | none => interleave hint sched (ts, h)
    | some pc =>
      match dec_ref_step hint pc h with
      | Except.ok (pc1, h1) => interleave hint sched (ts.set i pc1, h1)
      | Except.error e => Except.error e

/-- The number of invocations that saw the counter reach zero: those whose
`c->sub (1)` returned false. -/
def observers (ts : List dec_ref_pc) : Nat :=
  ts.count dec_ref_pc.zero_seen + ts.count dec_ref_pc.destroyed
    + ts.count (dec_ref_pc.returned true)

/-- An upper bound on the accesses that an invocation still has to make. -/
def steps_left : dec_ref_pc → Nat
  | dec_ref_pc.start => 3
  | dec_ref_pc.zero_seen => 2
  | dec_ref_pc.destroyed => 1
  | dec_ref_pc.returned _ => 0

/-- The bound `steps_left` for thread `j`, 0 when there is no such thread. -/
def left_at (ts : List dec_ref_pc) (j : Nat) : Nat :=
  match ts[j]? with
  | some pc => steps_left pc
  | none => 0

/-- What holds of `n` concurrent invocations on the block `p` of `sz` bytes,
relative to the heap `h0` in which they started.  Either nobody saw zero, at
least one invocation has not decremented yet, and the counter is the number of
those; or everybody has decremented and exactly one invocation saw zero, which
stands before the destructor call (counter 0), before `free` (no counter), or
has returned (block freed by the one `free`).  Other blocks are as in `h0`. -/
def dec_ref_inv (p sz : Nat) (h0 : Heap) (ts : List dec_ref_pc) (h : Heap) : Prop :=
  (∀ q, q ≠ p → h.find q = h0.find q) ∧
  ((ts.count dec_ref_pc.zero_seen = 0 ∧ ts.count dec_ref_pc.destroyed = 0 ∧
      ts.count (dec_ref_pc.returned true) = 0 ∧
      1 ≤ ts.count dec_ref_pc.start ∧ ts.count dec_ref_pc.start < INTEGER_MOD ∧
      h.find p = some ⟨sz, some ⟨ts.count dec_ref_pc.start⟩⟩ ∧ h.log = h0.log) ∨
   (ts.count dec_ref_pc.start = 0 ∧ ts.count dec_ref_pc.zero_seen = 1 ∧
      ts.count dec_ref_pc.destroyed = 0 ∧ ts.count (dec_ref_pc.returned true) = 0 ∧
      h.find p = some ⟨sz, some ⟨0⟩⟩ ∧ h.log = h0.log) ∨
   (ts.count dec_ref_pc.start = 0 ∧ ts.count dec_ref_pc.zero_seen = 0 ∧
      ts.count dec_ref_pc.destroyed = 1 ∧ ts.count (dec_ref_pc.returned true) = 0 ∧
      h.find p = some ⟨sz, none⟩ ∧ h.log = h0.log) ∨
   (ts.count dec_ref_pc.start = 0 ∧ ts.count dec_ref_pc.zero_seen = 0 ∧
      ts.count dec_ref_pc.destroyed = 0 ∧ ts.count (dec_ref_pc.returned true) = 1 ∧
      h.find p = none ∧ h.log = HeapEvent.free p :: h0.log))

/-! ## Lemmas on the block list -/

theorem lookup_store_same (p : Nat) (b : Block) (l : List (Nat × Block)) :
    lookup p (store p b l) = (lookup p l).map fun _ => b := by
  induction l with
  | nil => rfl
  | cons x t ih =>
    obtain ⟨a, y⟩ := x
    by_cases hap : a = p <;> simp [lookup, store, hap, ih]

theorem lookup_store_other (p q : Nat) (b : Block) (l : List (Nat × Block)) (hq : q ≠ p) :
    lookup q (store p b l) = lookup q l := by
  induction l with
  | nil => rfl
  | cons x t ih =>
    obtain ⟨a, y⟩ := x
    by_cases hap : a = p
    · subst hap
      have : ¬ a = q := fun e => hq e.symm
      simp [lookup, store, this]
    · by_cases haq : a = q <;> simp [lookup, store, hap, haq, hq, ih]

theorem store_lookup (p : Nat) (b : Block) (l : List (Nat × Block))
    (hl : lookup p l = some b) : store p b l = l := by
  induction l with
  | nil => rfl
  | cons x t ih =>
    obtain ⟨a, y⟩ := x
    by_cases hap : a = p
    · simp [lookup, hap] at hl
      simp [store, hap, hl]
    · simp [lookup, hap] at hl
      simp [store, hap, ih hl]

theorem store_store (p : Nat) (b c : Block) (l : List (Nat × Block)) :
    store p c (store p b l) = store p c l := by
  induction l with
  | nil => rfl
  | cons x t ih =>
    obtain ⟨a, y⟩ := x
    by_cases hap : a = p <;> simp [store, hap, ih]

theorem lookup_erase_same (p : Nat) (l : List (Nat × Block)) :
    lookup p (erase p l) = none := by
  induction l with
  | nil => rfl
  | cons x t ih =>
    obtain ⟨a, y⟩ := x
    by_cases hap : a = p <;> simp [lookup, erase, hap, ih]

theorem lookup_erase_other (p q : Nat) (l : List (Nat × Block)) (hq : q ≠ p) :
    lookup q (erase p l) = lookup q l := by
  induction l with
  | nil => rfl
  | cons x t ih =>
    obtain ⟨a, y⟩ := x
    by_cases hap : a = p
    · subst hap
      have : ¬ a = q := fun e => hq e.symm
      simp [lookup, erase, this, ih]
    · by_cases haq : a = q <;> simp [lookup, erase, hap, haq, hq, ih]

theorem erase_store (p : Nat) (b : Block) (l : List (Nat × Block)) :
    erase p (store p b l) = erase p l := by
  induction l with
  | nil => rfl
  | cons x t ih =>
    obtain ⟨a, y⟩ := x
    by_cases hap : a = p <;> simp [erase, store, hap, ih]

/-! ## Lemmas on the heap primitives -/

namespace Heap

theorem counter_of_find {h : Heap} {p n : Nat} {c : atomic_counter_t} (hp : p ≠ 0)
    (hf : h.find p = some ⟨n, some c⟩) : h.counter p = Except.ok (n, c) := by
  simp [counter, hp, hf]

theorem find_of_counter {h : Heap} {p n : Nat} {c : atomic_counter_t}
    (hc : h.counter p = Except.ok (n, c)) : p ≠ 0 ∧ h.find p = some ⟨n, some c⟩ := by
  unfold counter at hc
  by_cases hp : p = 0
  · simp [hp] at hc
  · simp only [hp, if_false] at hc
    refine ⟨hp, ?_⟩
    split at hc
    · rename_i n' c' heq
      simp only [Except.ok.injEq, Prod.mk.injEq] at hc
      rw [heq, hc.1, hc.2]
    · simp at hc

theorem sub_of_find {h : Heap} {p n : Nat} {c : atomic_counter_t} (d : Nat) (hp : p ≠ 0)
    (hf : h.find p = some ⟨n, some c⟩) :
    h.sub p d = Except.ok ((c.sub d).1, ⟨store p ⟨n, some (c.sub d).2⟩ h.blocks, h.log⟩) := by
  simp [sub, counter_of_find hp hf]

theorem add_of_find {h : Heap} {p n : Nat} {c : atomic_counter_t} (d : Nat) (hp : p ≠ 0)
    (hf : h.find p = some ⟨n, some c⟩) :
    h.add p d = Except.ok ((c.add d).1, ⟨store p ⟨n, some (c.add d).2⟩ h.blocks, h.log⟩) := by
  simp [add, counter_of_find hp hf]

theorem set_of_find {h : Heap} {p n : Nat} {c : atomic_counter_t} (v : Nat) (hp : p ≠ 0)
    (hf : h.find p = some ⟨n, some c⟩) :
    h.set p v = Except.ok ⟨store p ⟨n, some (c.set v)⟩ h.blocks, h.log⟩ := by
  simp [set, counter_of_find hp hf]

theorem find_store_same (h : Heap) (p : Nat) (b : Block) (lg : List HeapEvent) :
    (Heap.mk (store p b h.blocks) lg).find p = (h.find p).map fun _ => b := by
  simp [find, lookup_store_same]

theorem find_store_other (h : Heap) (p q : Nat) (b : Block) (lg : List HeapEvent)
    (hq : q ≠ p) : (Heap.mk (store p b h.blocks) lg).find q = h.find q := by
  simp [find, lookup_store_other p q b h.blocks hq]

end Heap

/-! ## The cases of `allocate` -/

namespace shared_message_memory_allocator

theorem mk_counter_one : atomic_counter_t.mk_counter 1 = ⟨1⟩ := by
  simp [atomic_counter_t.mk_counter, INTEGER_MOD]

theorem set_one (c : atomic_counter_t) : c.set 1 = ⟨1⟩ := by
  simp [atomic_counter_t.set, INTEGER_MOD]

theorem allocate_of_null (E : Env) (a : shared_message_memory_allocator) (h : Heap)
    (hb : a.buf = 0) :
    allocate E a h =
      if E.malloc h (allocationsize E a) = 0 then Except.error Fault.assertion
      else if E.sizeof_counter ≤ allocationsize E a then
        Except.ok (E.malloc h (allocationsize E a) + E.sizeof_counter,
          with_buf E a (E.malloc h (allocationsize E a)),
          ⟨(E.malloc h (allocationsize E a), ⟨allocationsize E a, some ⟨1⟩⟩) :: h.blocks,
           HeapEvent.malloc (E.malloc h (allocationsize E a)) (allocationsize E a) :: h.log⟩)
      else Except.error Fault.undefined := by
  by_cases hm : E.malloc h (allocationsize E a) = 0
  · simp [allocate, hb, Heap.malloc, hm, bind, Except.bind, pure, Except.pure]
  · by_cases hfit : E.sizeof_counter ≤ allocationsize E a
    · simp [allocate, hb, Heap.malloc, hm, hfit, Heap.construct, Heap.find, lookup, store,
        mk_counter_one, with_buf, bind, Except.bind, pure, Except.pure]
    · simp [allocate, hb, Heap.malloc, hm, hfit, Heap.construct, Heap.find, lookup,
        bind, Except.bind, pure, Except.pure]

theorem allocate_of_zero (E : Env) (a : shared_message_memory_allocator) (h : Heap)
    (n : Nat) (c : atomic_counter_t) (hp : a.buf ≠ 0)
    (hf : h.find a.buf = some ⟨n, some c⟩) (hz : (c.sub 1).1 = false) :
    allocate E a h = Except.ok (a.buf + E.sizeof_counter, with_buf E a a.buf,
      ⟨store a.buf ⟨n, some ⟨1⟩⟩ h.blocks, h.log⟩) := by
  have h2 : (Heap.mk (store a.buf ⟨n, some (c.sub 1).2⟩ h.blocks) h.log).find a.buf
      = some ⟨n, some (c.sub 1).2⟩ := by
    rw [Heap.find_store_same, hf]; rfl
  simp [allocate, hp, Heap.sub_of_find 1 hp hf, hz, Heap.set_of_find 1 hp h2, set_one,
    store_store, with_buf, bind, Except.bind, pure, Except.pure]

theorem allocate_of_shared (E : Env) (a : shared_message_memory_allocator) (h : Heap)
    (n : Nat) (c : atomic_counter_t) (hp : a.buf ≠ 0)
    (hf : h.find a.buf = some ⟨n, some c⟩) (hnz : (c.sub 1).1 = true) :
    allocate E a h =
      allocate E { a with buf := 0, bufsize := 0, msg_refcnt := 0 }
        ⟨store a.buf ⟨n, some (c.sub 1).2⟩ h.blocks, h.log⟩ := by
  simp [allocate, hp, Heap.sub_of_find 1 hp hf, hnz, release, bind, Except.bind, pure,
    Except.pure]

theorem allocate_of_fault (E : Env) (a : shared_message_memory_allocator) (h : Heap)
    (e : Fault) (hp : a.buf ≠ 0) (hc : h.counter a.buf = Except.error e) :
    allocate E a h = Except.error e := by
  simp [allocate, hp, Heap.sub, hc, bind, Except.bind]

theorem allocate_null_post {E : Env} {a a' : shared_message_memory_allocator}
    {h h' : Heap} {r : Nat} (hb : a.buf = 0)
    (hok : allocate E a h = Except.ok (r, a', h')) :
    a'.buf = E.malloc h (allocationsize E a) ∧ a'.buf ≠ 0 ∧
    E.sizeof_counter ≤ allocationsize E a ∧
    r = a'.buf + E.sizeof_counter ∧ a' = with_buf E a a'.buf ∧
    h' = ⟨(a'.buf, ⟨allocationsize E a, some ⟨1⟩⟩) :: h.blocks,
          HeapEvent.malloc a'.buf (allocationsize E a) :: h.log⟩ := by
  rw [allocate_of_null E a h hb] at hok
  by_cases hm : E.malloc h (allocationsize E a) = 0
  · simp [hm] at hok
  · by_cases hfit : E.sizeof_counter ≤ allocationsize E a
    · simp only [hm, hfit, if_true, if_false, Except.ok.injEq, Prod.mk.injEq] at hok
      obtain ⟨hr, ha, hh⟩ := hok
      subst ha
      refine ⟨rfl, hm, hfit, hr.symm, rfl, hh.symm⟩
    · simp [hm, hfit] at hok

theorem allocate_post {E : Env} {a a' : shared_message_memory_allocator}
    {h h' : Heap} {r : Nat} (hok : allocate E a h = Except.ok (r, a', h')) :
    a'.buf ≠ 0 ∧ r = a'.buf + E.sizeof_counter ∧ a' = with_buf E a a'.buf ∧
    ∃ n, h'.find a'.buf = some ⟨n, some ⟨1⟩⟩ := by
  by_cases hb : a.buf = 0
  · obtain ⟨_, h1, _, h2, h3, h4⟩ := allocate_null_post hb hok
    refine ⟨h1, h2, h3, allocationsize E a, ?_⟩
    rw [h4]; simp [Heap.find, lookup]
  · cases hc : h.counter a.buf with
    | error e => rw [allocate_of_fault E a h e hb hc] at hok; cases hok
    | ok nc =>
      obtain ⟨n, c⟩ := nc
      obtain ⟨_, hf⟩ := Heap.find_of_counter hc
      cases hz : (c.sub 1).1 with
      | false =>
        rw [allocate_of_zero E a h n c hb hf hz] at hok
        simp only [Except.ok.injEq, Prod.mk.injEq] at hok
        obtain ⟨hr, ha, hh⟩ := hok
        subst ha hh
        refine ⟨hb, hr.symm, rfl, n, ?_⟩
        show (Heap.mk _ _).find a.buf = _
        rw [Heap.find_store_same, hf]; rfl
      | true =>
        rw [allocate_of_shared E a h n c hb hf hz] at hok
        obtain ⟨_, h1, _, h2, h3, h4⟩ := allocate_null_post rfl hok
        refine ⟨h1, h2, h3, ?_⟩
        refine ⟨allocationsize E a, ?_⟩
        rw [h4]; simp [Heap.find, lookup, allocationsize]

end shared_message_memory_allocator

/-! ## The concrete environment is a legal C library -/

theorem le_top_of_lookup (p : Nat) (b : Block) (l : List (Nat × Block))
    (hl : lookup p l = some b) : p + b.size ≤ top l := by
  induction l with
  | nil => simp [lookup] at hl
  | cons x t ih =>
    obtain ⟨a, y⟩ := x
    by_cases hap : a = p
    · simp [lookup, hap] at hl
      subst hap hl
      simp [top]
    · simp [lookup, hap] at hl
      have := ih hl
      simp [top]; omega

theorem env64_fresh : env64.malloc_fresh := by
  intro h n _
  show lookup (top h.blocks + 16) h.blocks = none
  cases hl : lookup (top h.blocks + 16) h.blocks with
  | none => rfl
  | some b => have := le_top_of_lookup _ b _ hl; omega

theorem env64_total : env64.malloc_total := by
  intro h n
  show top h.blocks + 16 ≠ 0
  omega

/-! ## Claims -/

open shared_message_memory_allocator

/-- Claim C1 (reuse): when the allocator holds a live allocation whose counter
is exactly 1, `allocate` returns the payload pointer of that same allocation,
keeps `buf`, and leaves the whole heap as it was: no `malloc`, no `free`, the
counter again 1.  In particular the state right after an `allocate` is such a
state: a second `allocate` returns the same pointer and changes nothing. -/
theorem allocate_reuses_unshared_buffer (E : Env) (a : shared_message_memory_allocator)
    (h : Heap) :
    (∀ n, a.buf ≠ 0 → h.find a.buf = some ⟨n, some ⟨1⟩⟩ →
      allocate E a h = Except.ok (data E a, with_buf E a a.buf, h)) ∧
    (∀ r a' h', allocate E a h = Except.ok (r, a', h') →
      allocate E a' h' = Except.ok (r, a', h')) := by
  have key : ∀ (a : shared_message_memory_allocator) (h : Heap) (n : Nat), a.buf ≠ 0 →
      h.find a.buf = some ⟨n, some ⟨1⟩⟩ →
      allocate E a h = Except.ok (data E a, with_buf E a a.buf, h) := by
    intro a h n hp hf
    have hz : ((⟨1⟩ : atomic_counter_t).sub 1).1 = false := by
      simp [atomic_counter_t.sub, INTEGER_MOD]
    rw [allocate_of_zero E a h n ⟨1⟩ hp hf hz, store_lookup _ _ _ hf]
    rfl
  refine ⟨key a h, ?_⟩
  intro r a' h' hok
  obtain ⟨h1, h2, h3, n, h4⟩ := allocate_post hok
  rw [key a' h' n h1 h4, h2]
  have : with_buf E a' a'.buf = a' := by
    rw [h3]; rfl
  rw [this]; rfl

/-- Witness for C1: the allocator of the spec's scenario (`max_size = 256`,
eight counters) right after its first `allocate`. -/
theorem allocate_reuses_unshared_buffer_witness :
    ((16 : Nat) ≠ 0 ∧
     (Heap.mk [(16, ⟨292, some ⟨1⟩⟩)] [HeapEvent.malloc 16 292]).find 16
        = some ⟨292, some ⟨1⟩⟩ ∧
     allocate env64 ⟨16, 256, 256, 276, 8⟩
        ⟨[(16, ⟨292, some ⟨1⟩⟩)], [HeapEvent.malloc 16 292]⟩
      = Except.ok (20, ⟨16, 256, 256, 276, 8⟩,
          ⟨[(16, ⟨292, some ⟨1⟩⟩)], [HeapEvent.malloc 16 292]⟩)) ∧
    (allocate env64 (mk2 256 8) Heap.empty
      = Except.ok (20, ⟨16, 256, 256, 276, 8⟩,
          ⟨[(16, ⟨292, some ⟨1⟩⟩)], [HeapEvent.malloc 16 292]⟩)) :=
  ⟨⟨by decide, by decide,
    (allocate_reuses_unshared_buffer env64 ⟨16, 256, 256, 276, 8⟩
      ⟨[(16, ⟨292, some ⟨1⟩⟩)], [HeapEvent.malloc 16 292]⟩).1 292 (by decide) (by decide)⟩,
   by decide⟩

theorem sub_one_of_pos (v : Nat) (h1 : 1 ≤ v) (h2 : v < INTEGER_MOD) :
    (atomic_counter_t.mk v).sub 1 = (decide (v ≠ 1), ⟨v - 1⟩) := by
  have e : (v + (INTEGER_MOD - 1 % INTEGER_MOD)) % INTEGER_MOD = v - 1 := by
    simp only [INTEGER_MOD] at h2 ⊢
    omega
  have hd : (v - 1 != 0) = decide (v ≠ 1) := by
    rcases Nat.eq_or_lt_of_le h1 with hv | hv
    · simp [← hv]
    · have h3 : v - 1 ≠ 0 := by omega
      have h4 : v ≠ 1 := by omega
      simp [h3, h4]
  simp only [atomic_counter_t.sub, e, hd]

theorem count_of_find {h : Heap} {p n : Nat} {c : atomic_counter_t}
    (hf : h.find p = some ⟨n, some c⟩) : h.count p = some c.value := by
  simp [Heap.count, hf]

theorem find_of_count {h : Heap} {p v : Nat} (hc : h.count p = some v) :
    ∃ n, h.find p = some ⟨n, some ⟨v⟩⟩ := by
  unfold Heap.count at hc
  split at hc
  · rename_i n c heq
    simp only [Option.some.injEq] at hc
    exact ⟨n, by rw [heq, ← hc]⟩
  · cases hc

theorem freed_malloc (bl bl' : List (Nat × Block)) (lg : List HeapEvent) (p n : Nat) :
    (Heap.mk bl (HeapEvent.malloc p n :: lg)).freed = (Heap.mk bl' lg).freed := by
  simp [Heap.freed]

theorem freed_free (bl bl' : List (Nat × Block)) (lg : List HeapEvent) (p : Nat) :
    (Heap.mk bl (HeapEvent.free p :: lg)).freed = p :: (Heap.mk bl' lg).freed := by
  simp [Heap.freed]

namespace shared_message_memory_allocator

theorem inc_ref_of_find (a : shared_message_memory_allocator) (h : Heap) (n : Nat)
    (c : atomic_counter_t) (hp : a.buf ≠ 0) (hf : h.find a.buf = some ⟨n, some c⟩) :
    inc_ref a h = Except.ok
      ⟨store a.buf ⟨n, some ⟨(c.value + 1) % INTEGER_MOD⟩⟩ h.blocks, h.log⟩ := by
  simp [inc_ref, Heap.add_of_find 1 hp hf, atomic_counter_t.add, bind, Except.bind, pure,
    Except.pure]

theorem inc_refs_of_find (a : shared_message_memory_allocator) (n : Nat) (hp : a.buf ≠ 0) :
    ∀ (k : Nat) (h : Heap) (v : Nat), v < INTEGER_MOD →
      h.find a.buf = some ⟨n, some ⟨v⟩⟩ →
      inc_refs k a h = Except.ok
        ⟨store a.buf ⟨n, some ⟨(v + k) % INTEGER_MOD⟩⟩ h.blocks, h.log⟩ := by
  intro k
  induction k with
  | zero =>
    intro h v hv hf
    have hf' : lookup a.buf h.blocks = some ⟨n, some ⟨v⟩⟩ := hf
    simp [inc_refs, Nat.mod_eq_of_lt hv, store_lookup _ _ _ hf']
  | succ k ih =>
    intro h v hv hf
    have hf1 : (Heap.mk (store a.buf ⟨n, some ⟨(v + 1) % INTEGER_MOD⟩⟩ h.blocks) h.log).find
        a.buf = some ⟨n, some ⟨(v + 1) % INTEGER_MOD⟩⟩ := by
      rw [Heap.find_store_same, hf]; rfl
    have hlt : (v + 1) % INTEGER_MOD < INTEGER_MOD := Nat.mod_lt _ (by decide)
    simp only [inc_refs, inc_ref_of_find a h n ⟨v⟩ hp hf]
    rw [ih _ _ hlt hf1, store_store]
    have e : ((v + 1) % INTEGER_MOD + k) % INTEGER_MOD = (v + (k + 1)) % INTEGER_MOD := by
      simp only [INTEGER_MOD]; omega
    rw [e]

theorem allocate_shared_post {E : Env} (hfresh : E.malloc_fresh)
    {a a' : shared_message_memory_allocator} {h h' : Heap} {r n : Nat}
    {c : atomic_counter_t} (hp : a.buf ≠ 0) (hf : h.find a.buf = some ⟨n, some c⟩)
    (hnz : (c.sub 1).1 = true) (hok : allocate E a h = Except.ok (r, a', h')) :
    a'.buf ≠ 0 ∧ a'.buf ≠ a.buf ∧ h.find a'.buf = none ∧
    E.sizeof_counter ≤ allocationsize E a ∧
    r = a'.buf + E.sizeof_counter ∧ a' = with_buf E a a'.buf ∧
    h' = ⟨(a'.buf, ⟨allocationsize E a, some ⟨1⟩⟩)
            :: store a.buf ⟨n, some (c.sub 1).2⟩ h.blocks,
          HeapEvent.malloc a'.buf (allocationsize E a) :: h.log⟩ := by
  rw [allocate_of_shared E a h n c hp hf hnz] at hok
  obtain ⟨h0, h1, h2, h3, h4, h5⟩ := allocate_null_post rfl hok
  have hm : allocationsize E { a with buf := 0, bufsize := 0, msg_refcnt := 0 }
      = allocationsize E a := rfl
  rw [hm] at h0 h2 h5
  have hnone := hfresh _ _ (h0 ▸ h1)
  rw [← h0] at hnone
  have hne : a'.buf ≠ a.buf := by
    intro e
    rw [e, Heap.find_store_same, hf] at hnone
    cases hnone
  rw [Heap.find_store_other _ _ _ _ _ hne] at hnone
  refine ⟨h1, hne, hnone, h2, h3, ?_, h5⟩
  rw [h4]; rfl

end shared_message_memory_allocator

/-- Claim C2 (detach on a live reference): after `allocate` and `k ≥ 1` calls of
`inc_ref`, which always return and leave the counter at `1 + k` modulo `2 ^ 32`,
if the counter is `1 + k` then the next `allocate`, when it returns, returns the
payload pointer of a block that was not live before, at an address different
from the first one, with counter 1; the first block is still live, with the
size it had and counter exactly `k`; nothing is freed, and the heap differs
only by that decrement and the new block.  The call does return when `malloc`
does not fail and the requested size has room for the counter. -/
theorem allocate_detaches_shared_buffer (E : Env) (hfresh : E.malloc_fresh)
    (a0 a1 : shared_message_memory_allocator) (h0 h1 : Heap) (r1 k : Nat) (hk : 1 ≤ k)
    (h1ok : allocate E a0 h0 = Except.ok (r1, a1, h1)) :
    ∃ h2, inc_refs k a1 h1 = Except.ok h2 ∧
      h2.count a1.buf = some ((1 + k) % INTEGER_MOD) ∧
      (h2.count a1.buf = some (1 + k) →
        (∀ r2 a2 h3, allocate E a1 h2 = Except.ok (r2, a2, h3) →
          r2 = data E a2 ∧ r2 ≠ r1 ∧ a2.buf ≠ a1.buf ∧ a2.buf ≠ 0 ∧
          h2.live a2.buf = false ∧
          h3.count a2.buf = some 1 ∧
          h3.count a1.buf = some k ∧
          h3.freed = h2.freed ∧
          (∃ n, h2.find a1.buf = some ⟨n, some ⟨1 + k⟩⟩ ∧
            h3.blocks = (a2.buf, ⟨allocationsize E a1, some ⟨1⟩⟩)
              :: store a1.buf ⟨n, some ⟨k⟩⟩ h2.blocks) ∧
          h3.log = HeapEvent.malloc a2.buf (allocationsize E a1) :: h2.log) ∧
        (E.malloc_total → E.sizeof_counter ≤ allocationsize E a1 →
          ∃ r2 a2 h3, allocate E a1 h2 = Except.ok (r2, a2, h3))) := by
  obtain ⟨hb1, hr1, _, n, hf1⟩ := allocate_post h1ok
  have hinc := inc_refs_of_find a1 n hb1 k h1 1 (by decide) hf1
  have hf2 : (Heap.mk (store a1.buf ⟨n, some ⟨(1 + k) % INTEGER_MOD⟩⟩ h1.blocks) h1.log).find
      a1.buf = some ⟨n, some ⟨(1 + k) % INTEGER_MOD⟩⟩ := by
    rw [Heap.find_store_same, hf1]; rfl
  refine ⟨_, hinc, count_of_find hf2, ?_⟩
  intro hcnt
  rw [count_of_find hf2] at hcnt
  have hmod : (1 + k) % INTEGER_MOD = 1 + k := by simpa using hcnt
  have hlt : 1 + k < INTEGER_MOD := by
    rw [← hmod]; exact Nat.mod_lt _ (by decide)
  rw [hmod] at hf2 ⊢
  generalize Heap.mk (store a1.buf ⟨n, some ⟨1 + k⟩⟩ h1.blocks) h1.log = h2 at hf2 ⊢
  have hsub : (atomic_counter_t.mk (1 + k)).sub 1 = (true, ⟨k⟩) := by
    rw [sub_one_of_pos (1 + k) (by omega) hlt]
    have : 1 + k ≠ 1 := by omega
    simp [this]
  have hnz : ((atomic_counter_t.mk (1 + k)).sub 1).1 = true := by rw [hsub]
  constructor
  · intro r2 a2 h3 hok
    obtain ⟨g1, g2, g3, _, g5, _, g7⟩ := allocate_shared_post hfresh hb1 hf2 hnz hok
    rw [hsub] at g7
    have hk1 : lookup a1.buf (store a1.buf ⟨n, some ⟨k⟩⟩ h2.blocks)
        = some ⟨n, some ⟨k⟩⟩ := by
      have : lookup a1.buf h2.blocks = some ⟨n, some ⟨1 + k⟩⟩ := hf2
      rw [lookup_store_same, this]; rfl
    refine ⟨g5, ?_, g2, g1, ?_, ?_, ?_, ?_, ⟨n, hf2, ?_⟩, ?_⟩
    · rw [g5, hr1]; omega
    · simp [Heap.live, g3]
    · rw [g7]; simp [Heap.count, Heap.find, lookup]
    · rw [g7]
      have : ¬ a2.buf = a1.buf := g2
      simp [Heap.count, Heap.find, lookup, this, hk1]
    · rw [g7]; exact freed_malloc _ _ _ _ _
    · rw [g7]
    · rw [g7]
  · intro hmem hfit
    rw [allocate_of_shared E a1 h2 n _ hb1 hf2 hnz, allocate_of_null _ _ _ rfl]
    have hfit' : E.sizeof_counter ≤ allocationsize E
        { a1 with buf := 0, bufsize := 0, msg_refcnt := 0 } := hfit
    simp only [hmem _ _, hfit', if_true, if_false]
    exact ⟨_, _, _, rfl⟩

/-- Witness for C2: the spec's scenario with one `inc_ref` between the two
calls of `allocate`; the second buffer is at 324, the first one stays at 16. -/
theorem allocate_detaches_shared_buffer_witness :
    (env64.malloc_fresh ∧ 1 ≤ 1 ∧
     allocate env64 (mk2 256 8) Heap.empty
       = Except.ok (20, ⟨16, 256, 256, 276, 8⟩,
           ⟨[(16, ⟨292, some ⟨1⟩⟩)], [HeapEvent.malloc 16 292]⟩)) ∧
    ∃ h2, inc_refs 1 ⟨16, 256, 256, 276, 8⟩
            ⟨[(16, ⟨292, some ⟨1⟩⟩)], [HeapEvent.malloc 16 292]⟩ = Except.ok h2 ∧
      h2.count 16 = some (1 + 1) ∧
      ∃ r2 a2 h3, allocate env64 ⟨16, 256, 256, 276, 8⟩ h2 = Except.ok (r2, a2, h3) ∧
        r2 = 328 ∧ a2.buf = 324 ∧ h3.count 324 = some 1 ∧ h3.count 16 = some 1 ∧
        h3.freed = [] := by
  refine ⟨⟨env64_fresh, by decide, by decide⟩, ?_⟩
  obtain ⟨h2, hinc, _, himp⟩ := allocate_detaches_shared_buffer env64 env64_fresh
    (mk2 256 8) ⟨16, 256, 256, 276, 8⟩ Heap.empty
    ⟨[(16, ⟨292, some ⟨1⟩⟩)], [HeapEvent.malloc 16 292]⟩ 20 1 (by decide) (by decide)
  have e : h2 = ⟨[(16, ⟨292, some ⟨2⟩⟩)], [HeapEvent.malloc 16 292]⟩ := by
    have : inc_refs 1 ⟨16, 256, 256, 276, 8⟩
        ⟨[(16, ⟨292, some ⟨1⟩⟩)], [HeapEvent.malloc 16 292]⟩
        = Except.ok ⟨[(16, ⟨292, some ⟨2⟩⟩)], [HeapEvent.malloc 16 292]⟩ := by decide
    rw [this] at hinc
    exact (Except.ok.inj hinc).symm
  subst e
  have hcnt : (Heap.mk [(16, ⟨292, some ⟨2⟩⟩)] [HeapEvent.malloc 16 292]).count 16
      = some (1 + 1) := by decide
  obtain ⟨hall, htot⟩ := himp hcnt
  obtain ⟨r2, a2, h3, hok⟩ := htot env64_total (by decide)
  have hres : allocate env64 ⟨16, 256, 256, 276, 8⟩
      ⟨[(16, ⟨292, some ⟨2⟩⟩)], [HeapEvent.malloc 16 292]⟩
      = Except.ok (328, ⟨324, 256, 256, 584, 8⟩,
          ⟨[(324, ⟨292, some ⟨1⟩⟩), (16, ⟨292, some ⟨1⟩⟩)],
           [HeapEvent.malloc 324 292, HeapEvent.malloc 16 292]⟩) := by decide
  obtain ⟨_, _, _, _, _, g6, g7, g8, _, _⟩ := hall r2 a2 h3 hok
  rw [hres] at hok
  simp only [Except.ok.injEq, Prod.mk.injEq] at hok
  obtain ⟨e1, e2, e3⟩ := hok
  subst e1 e2 e3
  exact ⟨_, hinc, hcnt, _, _, _, hres, rfl, rfl, g6, g7, g8⟩

namespace shared_message_memory_allocator

theorem call_dec_ref_of_shared (h : Heap) (p n : Nat) (c : atomic_counter_t) (hp : p ≠ 0)
    (hf : h.find p = some ⟨n, some c⟩) (hnz : (c.sub 1).1 = true) :
    call_dec_ref p h = Except.ok ⟨store p ⟨n, some (c.sub 1).2⟩ h.blocks, h.log⟩ := by
  simp [call_dec_ref, hp, Heap.sub_of_find 1 hp hf, hnz, bind, Except.bind, pure, Except.pure]

theorem call_dec_ref_of_last (h : Heap) (p n : Nat) (c : atomic_counter_t) (hp : p ≠ 0)
    (hf : h.find p = some ⟨n, some c⟩) (hz : (c.sub 1).1 = false) :
    call_dec_ref p h = Except.ok ⟨erase p h.blocks, HeapEvent.free p :: h.log⟩ := by
  have hl : lookup p h.blocks = some ⟨n, some c⟩ := hf
  simp [call_dec_ref, hp, Heap.sub_of_find 1 hp hf, hz, Heap.destroy, Heap.free, Heap.find,
    lookup_store_same, hl, erase_store, bind, Except.bind, pure, Except.pure]

theorem call_dec_ref_of_fault (h : Heap) (p : Nat) (e : Fault) (hp : p ≠ 0)
    (hc : h.counter p = Except.error e) : call_dec_ref p h = Except.error e := by
  simp [call_dec_ref, hp, Heap.sub, hc, bind, Except.bind, pure, Except.pure]

theorem call_dec_refs_lt (p sz : Nat) (hp : p ≠ 0) :
    ∀ (j n : Nat) (h : Heap), j < n → n < INTEGER_MOD →
      h.find p = some ⟨sz, some ⟨n⟩⟩ →
      call_dec_refs j p h = Except.ok ⟨store p ⟨sz, some ⟨n - j⟩⟩ h.blocks, h.log⟩ := by
  intro j
  induction j with
  | zero =>
    intro n h _ _ hf
    have hl : lookup p h.blocks = some ⟨sz, some ⟨n⟩⟩ := hf
    simp [call_dec_refs, store_lookup _ _ _ hl]
  | succ j ih =>
    intro n h hj hn hf
    have hsub : (atomic_counter_t.mk n).sub 1 = (true, ⟨n - 1⟩) := by
      rw [sub_one_of_pos n (by omega) hn]
      have : n ≠ 1 := by omega
      simp [this]
    have hnz : ((atomic_counter_t.mk n).sub 1).1 = true := by rw [hsub]
    have hf1 : (Heap.mk (store p ⟨sz, some ⟨n - 1⟩⟩ h.blocks) h.log).find p
        = some ⟨sz, some ⟨n - 1⟩⟩ := by
      rw [Heap.find_store_same, hf]; rfl
    simp only [call_dec_refs, call_dec_ref_of_shared h p sz _ hp hf hnz, hsub]
    rw [ih (n - 1) _ (by omega) (by omega) hf1, store_store]
    have : n - 1 - j = n - (j + 1) := by omega
    rw [this]

theorem call_dec_refs_all (p sz : Nat) (hp : p ≠ 0) :
    ∀ (n : Nat) (h : Heap), 1 ≤ n → n < INTEGER_MOD →
      h.find p = some ⟨sz, some ⟨n⟩⟩ →
      call_dec_refs n p h = Except.ok ⟨erase p h.blocks, HeapEvent.free p :: h.log⟩ := by
  intro n
  induction n with
  | zero => intro h h1; omega
  | succ m ih =>
    intro h _ hn hf
    rcases Nat.eq_zero_or_pos m with hm | hm
    · subst hm
      have hz : ((atomic_counter_t.mk (0 + 1)).sub 1).1 = false := by
        simp [atomic_counter_t.sub, INTEGER_MOD]
      simp [call_dec_refs, call_dec_ref_of_last h p sz _ hp hf hz]
    · have hsub : (atomic_counter_t.mk (m + 1)).sub 1 = (true, ⟨m⟩) := by
        rw [sub_one_of_pos (m + 1) (by omega) hn]
        have : m + 1 ≠ 1 := by omega
        simp [this]
      have hnz : ((atomic_counter_t.mk (m + 1)).sub 1).1 = true := by rw [hsub]
      have hf1 : (Heap.mk (store p ⟨sz, some ⟨m⟩⟩ h.blocks) h.log).find p
          = some ⟨sz, some ⟨m⟩⟩ := by
        rw [Heap.find_store_same, hf]; rfl
      simp only [call_dec_refs, call_dec_ref_of_shared h p sz _ hp hf hnz, hsub]
      rw [ih _ hm (by omega) hf1, erase_store]

end shared_message_memory_allocator

/-- Claim C3 (decrement callback): for a live allocation `p` with counter `n`,
`1 ≤ n < 2 ^ 32`, one `call_dec_ref` returns and frees `p` if and only if
`n = 1` (then the block is gone and one `free (p)` was made); when `n > 1` the
block stays live with its size and counter `n - 1` and no `free` is made; no
other block is touched.  Consequently `j < n` calls leave it live with counter
`n - j` and free nothing, and `n` calls end with `p` freed by exactly one
`free`. -/
theorem call_dec_ref_frees_exactly_at_zero (h : Heap) (p sz n : Nat) (hp : p ≠ 0)
    (hn1 : 1 ≤ n) (hn2 : n < INTEGER_MOD) (hf : h.find p = some ⟨sz, some ⟨n⟩⟩) :
    (∃ h', call_dec_ref p h = Except.ok h' ∧
      (h'.live p = false ↔ n = 1) ∧
      (n = 1 → h'.blocks = erase p h.blocks ∧ h'.log = HeapEvent.free p :: h.log) ∧
      (1 < n → h'.find p = some ⟨sz, some ⟨n - 1⟩⟩ ∧ h'.log = h.log ∧
        h'.blocks = store p ⟨sz, some ⟨n - 1⟩⟩ h.blocks) ∧
      (∀ q, q ≠ p → h'.find q = h.find q)) ∧
    (∀ j, j < n → ∃ hj, call_dec_refs j p h = Except.ok hj ∧
      hj.count p = some (n - j) ∧ hj.live p = true ∧ hj.log = h.log) ∧
    (∃ hn, call_dec_refs n p h = Except.ok hn ∧ hn.live p = false ∧
      hn.log = HeapEvent.free p :: h.log ∧ hn.freed = p :: h.freed) := by
  refine ⟨?_, ?_, ?_⟩
  · rcases Nat.eq_or_lt_of_le hn1 with h1 | h1
    · subst h1
      have hz : ((atomic_counter_t.mk 1).sub 1).1 = false := by
        simp [atomic_counter_t.sub, INTEGER_MOD]
      refine ⟨_, call_dec_ref_of_last h p sz _ hp hf hz, ?_, ?_, ?_, ?_⟩
      · simp [Heap.live, Heap.find, lookup_erase_same]
      · intro _; exact ⟨rfl, rfl⟩
      · intro hlt; omega
      · intro q hq
        show lookup q (erase p h.blocks) = lookup q h.blocks
        exact lookup_erase_other p q _ hq
    · have hsub : (atomic_counter_t.mk n).sub 1 = (true, ⟨n - 1⟩) := by
        rw [sub_one_of_pos n hn1 hn2]
        have : n ≠ 1 := by omega
        simp [this]
      have hnz : ((atomic_counter_t.mk n).sub 1).1 = true := by rw [hsub]
      have hf1 : (Heap.mk (store p ⟨sz, some ⟨n - 1⟩⟩ h.blocks) h.log).find p
          = some ⟨sz, some ⟨n - 1⟩⟩ := by
        rw [Heap.find_store_same, hf]; rfl
      have hcall := call_dec_ref_of_shared h p sz _ hp hf hnz
      rw [hsub] at hcall
      refine ⟨_, hcall, ?_, ?_, ?_, ?_⟩
      · have : n ≠ 1 := by omega
        simp [Heap.live, hf1, this]
      · intro h1'; omega
      · intro _; exact ⟨hf1, rfl, rfl⟩
      · intro q hq
        exact Heap.find_store_other _ _ _ _ _ hq
  · intro j hj
    have hf1 : (Heap.mk (store p ⟨sz, some ⟨n - j⟩⟩ h.blocks) h.log).find p
        = some ⟨sz, some ⟨n - j⟩⟩ := by
      rw [Heap.find_store_same, hf]; rfl
    refine ⟨_, call_dec_refs_lt p sz hp j n h hj hn2 hf, count_of_find hf1, ?_, rfl⟩
    simp [Heap.live, hf1]
  · refine ⟨_, call_dec_refs_all p sz hp n h hn1 hn2 hf, ?_, rfl, ?_⟩
    · simp [Heap.live, Heap.find, lookup_erase_same]
    · exact freed_free _ _ _ _

/-- Witness for C3: a detached block at 16 with counter 2. -/
theorem call_dec_ref_frees_exactly_at_zero_witness :
    ((16 : Nat) ≠ 0 ∧ 1 ≤ 2 ∧ 2 < INTEGER_MOD ∧
      (Heap.mk [(16, ⟨292, some ⟨2⟩⟩)] [HeapEvent.malloc 16 292]).find 16
        = some ⟨292, some ⟨2⟩⟩) ∧
    call_dec_refs 1 16 ⟨[(16, ⟨292, some ⟨2⟩⟩)], [HeapEvent.malloc 16 292]⟩
      = Except.ok ⟨[(16, ⟨292, some ⟨1⟩⟩)], [HeapEvent.malloc 16 292]⟩ ∧
    call_dec_refs 2 16 ⟨[(16, ⟨292, some ⟨2⟩⟩)], [HeapEvent.malloc 16 292]⟩
      = Except.ok ⟨[], [HeapEvent.free 16, HeapEvent.malloc 16 292]⟩ ∧
    ∃ hn, call_dec_refs 2 16 ⟨[(16, ⟨292, some ⟨2⟩⟩)], [HeapEvent.malloc 16 292]⟩
        = Except.ok hn ∧ hn.live 16 = false ∧ hn.freed = [16] := by
  refine ⟨⟨by decide, by decide, by decide, by decide⟩, by decide, by decide, ?_⟩
  obtain ⟨hn, g1, g2, _, g4⟩ :=
    (call_dec_ref_frees_exactly_at_zero
      ⟨[(16, ⟨292, some ⟨2⟩⟩)], [HeapEvent.malloc 16 292]⟩ 16 292 2
      (by decide) (by decide) (by decide) (by decide)).2.2
  exact ⟨hn, g1, g2, g4⟩

namespace shared_message_memory_allocator

theorem scenario_eq (E : Env) (hfresh : E.malloc_fresh) (hmem : E.malloc_total)
    (ms mc k j : Nat) (hk : 1 ≤ k) (hkb : 1 + k < INTEGER_MOD) (hj : j ≤ k)
    (hfit : E.sizeof_counter ≤ allocationsize E (mk2 ms mc)) :
    ∃ p1 p2, p1 ≠ 0 ∧ p2 ≠ 0 ∧ p2 ≠ p1 ∧
      scenario E (mk2 ms mc) k j = Except.ok (p1, with_buf E (mk2 ms mc) p2,
        if j < k then
          ⟨[(p2, ⟨allocationsize E (mk2 ms mc), some ⟨1⟩⟩),
            (p1, ⟨allocationsize E (mk2 ms mc), some ⟨k - j⟩⟩)],
           [HeapEvent.malloc p2 (allocationsize E (mk2 ms mc)),
            HeapEvent.malloc p1 (allocationsize E (mk2 ms mc))]⟩
        else
          ⟨[(p2, ⟨allocationsize E (mk2 ms mc), some ⟨1⟩⟩)],
           [HeapEvent.free p1, HeapEvent.malloc p2 (allocationsize E (mk2 ms mc)),
            HeapEvent.malloc p1 (allocationsize E (mk2 ms mc))]⟩) := by
  generalize hsz : allocationsize E (mk2 ms mc) = sz at hfit
  -- first allocate
  generalize hp1 : E.malloc Heap.empty sz = p1
  have hp1z : p1 ≠ 0 := hp1 ▸ hmem _ _
  have e1 : allocate E (mk2 ms mc) Heap.empty = Except.ok (p1 + E.sizeof_counter,
      with_buf E (mk2 ms mc) p1,
      ⟨[(p1, ⟨sz, some ⟨1⟩⟩)], [HeapEvent.malloc p1 sz]⟩) := by
    rw [allocate_of_null E _ _ rfl, hsz, hp1]
    simp [hp1z, hfit, Heap.empty]
  -- the calls of inc_ref
  have hb1 : (with_buf E (mk2 ms mc) p1).buf ≠ 0 := hp1z
  have e2 : inc_refs k (with_buf E (mk2 ms mc) p1)
      ⟨[(p1, ⟨sz, some ⟨1⟩⟩)], [HeapEvent.malloc p1 sz]⟩
      = Except.ok ⟨[(p1, ⟨sz, some ⟨1 + k⟩⟩)], [HeapEvent.malloc p1 sz]⟩ := by
    rw [inc_refs_of_find _ sz hb1 k _ 1 (by decide) (by simp [Heap.find, lookup, with_buf])]
    simp [store, with_buf, Nat.mod_eq_of_lt hkb]
  -- second allocate
  have hsub : (atomic_counter_t.mk (1 + k)).sub 1 = (true, ⟨k⟩) := by
    rw [sub_one_of_pos (1 + k) (by omega) hkb]
    have : 1 + k ≠ 1 := by omega
    simp [this]
  have hnz : ((atomic_counter_t.mk (1 + k)).sub 1).1 = true := by rw [hsub]
  have hf2 : (Heap.mk [(p1, ⟨sz, some ⟨1 + k⟩⟩)] [HeapEvent.malloc p1 sz]).find
      (with_buf E (mk2 ms mc) p1).buf = some ⟨sz, some ⟨1 + k⟩⟩ := by
    simp [Heap.find, lookup, with_buf]
  generalize hp2 : E.malloc ⟨[(p1, ⟨sz, some ⟨k⟩⟩)], [HeapEvent.malloc p1 sz]⟩ sz = p2
  have hp2z : p2 ≠ 0 := hp2 ▸ hmem _ _
  have hp21 : p2 ≠ p1 := by
    have := hfresh ⟨[(p1, ⟨sz, some ⟨k⟩⟩)], [HeapEvent.malloc p1 sz]⟩ sz (hp2 ▸ hp2z)
    rw [hp2] at this
    intro e
    simp [Heap.find, lookup, e] at this
  have hsz' : allocationsize E
      { with_buf E (mk2 ms mc) p1 with buf := 0, bufsize := 0, msg_refcnt := 0 } = sz := hsz
  have e3 : allocate E (with_buf E (mk2 ms mc) p1)
      ⟨[(p1, ⟨sz, some ⟨1 + k⟩⟩)], [HeapEvent.malloc p1 sz]⟩
      = Except.ok (p2 + E.sizeof_counter, with_buf E (mk2 ms mc) p2,
          ⟨[(p2, ⟨sz, some ⟨1⟩⟩), (p1, ⟨sz, some ⟨k⟩⟩)],
           [HeapEvent.malloc p2 sz, HeapEvent.malloc p1 sz]⟩) := by
    rw [allocate_of_shared E _ _ sz _ hb1 hf2 hnz, allocate_of_null E _ _ rfl, hsz', hsub]
    have : store (with_buf E (mk2 ms mc) p1).buf ⟨sz, some ⟨k⟩⟩ [(p1, ⟨sz, some ⟨1 + k⟩⟩)]
        = [(p1, ⟨sz, some ⟨k⟩⟩)] := by simp [store, with_buf]
    simp only [this, hp2]
    simp [hp2z, hfit, with_buf]
  -- the callbacks
  have hf3 : (Heap.mk [(p2, ⟨sz, some ⟨1⟩⟩), (p1, ⟨sz, some ⟨k⟩⟩)]
      [HeapEvent.malloc p2 sz, HeapEvent.malloc p1 sz]).find p1 = some ⟨sz, some ⟨k⟩⟩ := by
    simp [Heap.find, lookup, hp21]
  have hb : (with_buf E (mk2 ms mc) p1).buf = p1 := rfl
  refine ⟨p1, p2, hp1z, hp2z, hp21, ?_⟩
  rcases Nat.lt_or_ge j k with hlt | hge
  · simp only [scenario, e1, e2, e3, hb, hlt, if_true]
    rw [call_dec_refs_lt p1 sz hp1z j k _ hlt (by omega) hf3]
    simp [store, hp21]
  · have hjk : j = k := by omega
    subst hjk
    simp only [scenario, e1, e2, e3, hb, Nat.lt_irrefl, if_false]
    rw [call_dec_refs_all p1 sz hp1z j _ hk (by omega) hf3]
    simp [erase, hp21]

end shared_message_memory_allocator

/-- Claim C4 (scenario, no leak and no premature free): from a freshly
constructed allocator on a heap without blocks, with a `malloc` that returns
fresh blocks and does not fail, `allocate`, `k` calls of `inc_ref`
(`1 ≤ k`, `1 + k < 2 ^ 32`), `allocate`, then `k` callbacks on the base pointer
of the first buffer return; the first buffer is then freed, by one `free`, the
only one made; the only live block is the current buffer of the allocator,
different from the first, with counter 1, and `size ()` is `max_size`.  After
only `j < k` callbacks the first buffer is still live with counter `k - j` and
nothing was freed. -/
theorem scenario_frees_first_buffer_once (E : Env) (hfresh : E.malloc_fresh)
    (hmem : E.malloc_total) (ms mc k : Nat) (hk : 1 ≤ k) (hkb : 1 + k < INTEGER_MOD)
    (hfit : E.sizeof_counter ≤ allocationsize E (mk2 ms mc)) :
    (∃ p1 a2 h4, scenario E (mk2 ms mc) k k = Except.ok (p1, a2, h4) ∧
      h4.live p1 = false ∧ h4.freed = [p1] ∧ a2.buf ≠ p1 ∧ a2.buf ≠ 0 ∧
      h4.blocks = [(a2.buf, ⟨allocationsize E (mk2 ms mc), some ⟨1⟩⟩)] ∧
      h4.count a2.buf = some 1 ∧ size a2 = ms ∧ a2.max_size = ms) ∧
    (∀ j, j < k → ∃ p1 a2 hj, scenario E (mk2 ms mc) k j = Except.ok (p1, a2, hj) ∧
      hj.live p1 = true ∧ hj.count p1 = some (k - j) ∧ hj.freed = [] ∧
      hj.count a2.buf = some 1) := by
  constructor
  · obtain ⟨p1, p2, h1, h2, h3, he⟩ :=
      scenario_eq E hfresh hmem ms mc k k hk hkb (Nat.le_refl k) hfit
    simp only [Nat.lt_irrefl, if_false] at he
    refine ⟨_, _, _, he, ?_, ?_, h3, h2, rfl, ?_, rfl, rfl⟩
    · have : ¬ p2 = p1 := h3
      simp [Heap.live, Heap.find, lookup, this]
    · simp [Heap.freed]
    · simp [Heap.count, Heap.find, lookup, with_buf]
  · intro j hj
    obtain ⟨p1, p2, h1, h2, h3, he⟩ :=
      scenario_eq E hfresh hmem ms mc k j hk hkb (Nat.le_of_lt hj) hfit
    simp only [hj, if_true] at he
    have : ¬ p2 = p1 := h3
    refine ⟨_, _, _, he, ?_, ?_, ?_, ?_⟩
    · simp [Heap.live, Heap.find, lookup, this]
    · simp [Heap.count, Heap.find, lookup, this]
    · simp [Heap.freed]
    · simp [Heap.count, Heap.find, lookup, with_buf]

/-- Witness for C4: `max_size = 256`, eight counters, `k = 1`. -/
theorem scenario_frees_first_buffer_once_witness :
    (env64.malloc_fresh ∧ env64.malloc_total ∧ 1 ≤ 1 ∧ 1 + 1 < INTEGER_MOD ∧
      env64.sizeof_counter ≤ allocationsize env64 (mk2 256 8)) ∧
    scenario env64 (mk2 256 8) 1 0
      = Except.ok (16, ⟨324, 256, 256, 584, 8⟩,
          ⟨[(324, ⟨292, some ⟨1⟩⟩), (16, ⟨292, some ⟨1⟩⟩)],
           [HeapEvent.malloc 324 292, HeapEvent.malloc 16 292]⟩) ∧
    scenario env64 (mk2 256 8) 1 1
      = Except.ok (16, ⟨324, 256, 256, 584, 8⟩,
          ⟨[(324, ⟨292, some ⟨1⟩⟩)],
           [HeapEvent.free 16, HeapEvent.malloc 324 292, HeapEvent.malloc 16 292]⟩) ∧
    ∃ p1 a2 h4, scenario env64 (mk2 256 8) 1 1 = Except.ok (p1, a2, h4) ∧
      h4.live p1 = false ∧ h4.freed = [p1] ∧ h4.count a2.buf = some 1 ∧ size a2 = 256 := by
  refine ⟨⟨env64_fresh, env64_total, by decide, by decide, by decide⟩, by decide,
    by decide, ?_⟩
  obtain ⟨p1, a2, h4, g1, g2, g3, _, _, _, g7, g8, _⟩ :=
    (scenario_frees_first_buffer_once env64 env64_fresh env64_total 256 8 1
      (by decide) (by decide) (by decide)).1
  exact ⟨p1, a2, h4, g1, g2, g3, g7, g8⟩

/-- Claim C5, amended (balanced `inc_ref` and callbacks): when the allocator
holds a live allocation with counter `c`, `1 ≤ c < 2 ^ 32`, and
`c + n ≤ 2 ^ 32`, then `n` calls of `inc_ref` followed by `n` runs of the
callback on the base pointer all return and leave the heap exactly as it was:
the allocation live with counter `c`, nothing freed.  The data members of the
allocator are not written by either operation. -/
theorem balanced_inc_dec_restores_heap (a : shared_message_memory_allocator) (h : Heap)
    (sz c n : Nat) (hp : a.buf ≠ 0) (hf : h.find a.buf = some ⟨sz, some ⟨c⟩⟩)
    (hc1 : 1 ≤ c) (hc2 : c < INTEGER_MOD) (hn : c + n ≤ INTEGER_MOD) :
    ∃ h1, inc_refs n a h = Except.ok h1 ∧ call_dec_refs n a.buf h1 = Except.ok h ∧
      h.count a.buf = some c := by
  have hl : lookup a.buf h.blocks = some ⟨sz, some ⟨c⟩⟩ := hf
  refine ⟨_, inc_refs_of_find a sz hp n h c hc2 hf, ?_, count_of_find hf⟩
  cases n with
  | zero =>
    simp [call_dec_refs, Nat.mod_eq_of_lt hc2, store_lookup _ _ _ hl]
  | succ m =>
    have hf1 : (Heap.mk (store a.buf ⟨sz, some ⟨(c + (m + 1)) % INTEGER_MOD⟩⟩ h.blocks)
        h.log).find a.buf = some ⟨sz, some ⟨(c + (m + 1)) % INTEGER_MOD⟩⟩ := by
      rw [Heap.find_store_same, hf]; rfl
    have hsub : (atomic_counter_t.mk ((c + (m + 1)) % INTEGER_MOD)).sub 1
        = (true, ⟨c + m⟩) := by
      have e : ((c + (m + 1)) % INTEGER_MOD + (INTEGER_MOD - 1 % INTEGER_MOD)) % INTEGER_MOD
          = c + m := by
        simp only [INTEGER_MOD] at hn ⊢
        omega
      have hne : c + m ≠ 0 := by omega
      simp [atomic_counter_t.sub, e, hne]
    have hnz : ((atomic_counter_t.mk ((c + (m + 1)) % INTEGER_MOD)).sub 1).1 = true := by
      rw [hsub]
    have hf2 : (Heap.mk (store a.buf ⟨sz, some ⟨c + m⟩⟩ h.blocks) h.log).find a.buf
        = some ⟨sz, some ⟨c + m⟩⟩ := by
      rw [Heap.find_store_same, hf]; rfl
    simp only [call_dec_refs, call_dec_ref_of_shared _ a.buf sz _ hp hf1 hnz, hsub,
      store_store]
    rw [call_dec_refs_lt a.buf sz hp m (c + m) _ (by omega) (by omega) hf2, store_store]
    have : c + m - m = c := by omega
    rw [this, store_lookup _ _ _ hl]

/-- Witness for C5: counter 1, two calls of `inc_ref`, two callbacks. -/
theorem balanced_inc_dec_restores_heap_witness :
    ((16 : Nat) ≠ 0 ∧
      (Heap.mk [(16, ⟨292, some ⟨1⟩⟩)] [HeapEvent.malloc 16 292]).find 16
        = some ⟨292, some ⟨1⟩⟩ ∧ 1 ≤ 1 ∧ 1 < INTEGER_MOD ∧ 1 + 2 ≤ INTEGER_MOD) ∧
    ∃ h1, inc_refs 2 ⟨16, 256, 256, 276, 8⟩
            ⟨[(16, ⟨292, some ⟨1⟩⟩)], [HeapEvent.malloc 16 292]⟩ = Except.ok h1 ∧
      call_dec_refs 2 16 h1
        = Except.ok ⟨[(16, ⟨292, some ⟨1⟩⟩)], [HeapEvent.malloc 16 292]⟩ ∧
      (Heap.mk [(16, ⟨292, some ⟨1⟩⟩)] [HeapEvent.malloc 16 292]).count 16 = some 1 :=
  ⟨⟨by decide, by decide, by decide, by decide, by decide⟩,
   balanced_inc_dec_restores_heap ⟨16, 256, 256, 276, 8⟩
     ⟨[(16, ⟨292, some ⟨1⟩⟩)], [HeapEvent.malloc 16 292]⟩ 292 1 2
     (by decide) (by decide) (by decide) (by decide) (by decide)⟩

/-- Counterexample to C5 as stated: with counter 1 and `n = 2 ^ 32`, the calls
of `inc_ref` wrap the 32-bit counter back to 1, the first callback then frees
the allocation, and the second one runs on a freed block. -/
theorem balanced_inc_dec_counterexample :
    inc_refs (2 ^ 32) ⟨16, 256, 256, 276, 8⟩
        ⟨[(16, ⟨292, some ⟨1⟩⟩)], [HeapEvent.malloc 16 292]⟩
      = Except.ok ⟨[(16, ⟨292, some ⟨1⟩⟩)], [HeapEvent.malloc 16 292]⟩ ∧
    call_dec_ref 16 ⟨[(16, ⟨292, some ⟨1⟩⟩)], [HeapEvent.malloc 16 292]⟩
      = Except.ok ⟨[], [HeapEvent.free 16, HeapEvent.malloc 16 292]⟩ ∧
    call_dec_refs (2 ^ 32) 16 ⟨[(16, ⟨292, some ⟨1⟩⟩)], [HeapEvent.malloc 16 292]⟩
      = Except.error Fault.undefined := by
  refine ⟨?_, by decide, ?_⟩
  · rw [inc_refs_of_find ⟨16, 256, 256, 276, 8⟩ 292 (by decide) (2 ^ 32) _ 1 (by decide)
      (by decide)]
    decide
  · have e : (2 : Nat) ^ 32 = 4294967294 + 1 + 1 := by norm_num
    have h1 : call_dec_ref 16 ⟨[(16, ⟨292, some ⟨1⟩⟩)], [HeapEvent.malloc 16 292]⟩
        = Except.ok ⟨[], [HeapEvent.free 16, HeapEvent.malloc 16 292]⟩ := by decide
    have h2 : call_dec_ref 16 ⟨[], [HeapEvent.free 16, HeapEvent.malloc 16 292]⟩
        = Except.error Fault.undefined := by decide
    rw [e]
    simp only [call_dec_refs, h1, h2]

/-- Claim C6 (postcondition of `allocate`): from every state, whenever
`allocate` returns, `size ()` equals `max_size` (which, like `maxCounters`, is
not changed), `buf` is non-null and points to a live block whose counter is
exactly 1, and the returned pointer is `data ()`, the base plus the size of
one counter.  It does return from the empty state and from a state whose
buffer is live with a counter, whether that counter is 1 or larger, provided
`malloc` does not fail and the size requested has room for the counter. -/
theorem allocate_postcondition (E : Env) (a : shared_message_memory_allocator) (h : Heap) :
    (∀ r a' h', allocate E a h = Except.ok (r, a', h') →
      size a' = a'.max_size ∧ a'.max_size = a.max_size ∧ a'.maxCounters = a.maxCounters ∧
      a'.buf ≠ 0 ∧ h'.live a'.buf = true ∧ h'.count a'.buf = some 1 ∧
      r = data E a' ∧ data E a' = a'.buf + E.sizeof_counter) ∧
    (E.malloc_total → E.sizeof_counter ≤ allocationsize E a →
      (a.buf = 0 ∨ ∃ n c, h.find a.buf = some ⟨n, some c⟩) →
      ∃ r a' h', allocate E a h = Except.ok (r, a', h')) := by
  constructor
  · intro r a' h' hok
    obtain ⟨h1, h2, h3, n, h4⟩ := allocate_post hok
    refine ⟨?_, ?_, ?_, h1, ?_, count_of_find h4, h2, rfl⟩
    · rw [h3]; rfl
    · rw [h3]; rfl
    · rw [h3]; rfl
    · simp [Heap.live, h4]
  · intro hmem hfit hst
    by_cases hb : a.buf = 0
    · rw [allocate_of_null E a h hb]
      simp only [hmem _ _, hfit, if_true, if_false]
      exact ⟨_, _, _, rfl⟩
    · rcases hst with hb' | ⟨n, c, hf⟩
      · exact absurd hb' hb
      · cases hz : (c.sub 1).1 with
        | false => exact ⟨_, _, _, allocate_of_zero E a h n c hb hf hz⟩
        | true =>
          rw [allocate_of_shared E a h n c hb hf hz, allocate_of_null _ _ _ rfl]
          have hfit' : E.sizeof_counter ≤ allocationsize E
              { a with buf := 0, bufsize := 0, msg_refcnt := 0 } := hfit
          simp only [hmem _ _, hfit', if_true, if_false]
          exact ⟨_, _, _, rfl⟩

/-- Witness for C6: the three kinds of state of the spec's scenario allocator:
empty, buffer with counter 1, buffer with counter 2. -/
theorem allocate_postcondition_witness :
    (allocate env64 (mk2 256 8) Heap.empty
      = Except.ok (20, ⟨16, 256, 256, 276, 8⟩,
          ⟨[(16, ⟨292, some ⟨1⟩⟩)], [HeapEvent.malloc 16 292]⟩)) ∧
    (size ⟨16, 256, 256, 276, 8⟩ = 256 ∧
      (Heap.mk [(16, ⟨292, some ⟨1⟩⟩)] [HeapEvent.malloc 16 292]).count 16 = some 1 ∧
      20 = data env64 ⟨16, 256, 256, 276, 8⟩) ∧
    (env64.malloc_total ∧ env64.sizeof_counter ≤ allocationsize env64 ⟨16, 256, 256, 276, 8⟩ ∧
      ∃ r a' h', allocate env64 ⟨16, 256, 256, 276, 8⟩
        ⟨[(16, ⟨292, some ⟨2⟩⟩)], [HeapEvent.malloc 16 292]⟩ = Except.ok (r, a', h')) := by
  have hok : allocate env64 (mk2 256 8) Heap.empty
      = Except.ok (20, ⟨16, 256, 256, 276, 8⟩,
          ⟨[(16, ⟨292, some ⟨1⟩⟩)], [HeapEvent.malloc 16 292]⟩) := by decide
  obtain ⟨g1, _, _, _, _, g6, g7, _⟩ :=
    (allocate_postcondition env64 (mk2 256 8) Heap.empty).1 _ _ _ hok
  refine ⟨hok, ⟨g1, g6, g7⟩, env64_total, by decide, ?_⟩
  exact (allocate_postcondition env64 ⟨16, 256, 256, 276, 8⟩
    ⟨[(16, ⟨292, some ⟨2⟩⟩)], [HeapEvent.malloc 16 292]⟩).2 env64_total (by decide)
    (Or.inr ⟨292, ⟨2⟩, by decide⟩)

/-- Every returning `allocate` either made no call of `malloc` or `free`, or
made one `malloc` of `allocationsize` bytes whose result is the new `buf`. -/
theorem allocate_log {E : Env} {a a' : shared_message_memory_allocator} {h h' : Heap}
    {r : Nat} (hok : allocate E a h = Except.ok (r, a', h')) :
    h'.log = h.log ∨
    (h'.log = HeapEvent.malloc a'.buf (allocationsize E a) :: h.log ∧
      h'.find a'.buf = some ⟨allocationsize E a, some ⟨1⟩⟩) := by
  by_cases hb : a.buf = 0
  · obtain ⟨_, _, _, _, _, h4⟩ := allocate_null_post hb hok
    right
    rw [h4]; simp [Heap.find, lookup]
  · cases hc : h.counter a.buf with
    | error e => rw [allocate_of_fault E a h e hb hc] at hok; cases hok
    | ok nc =>
      obtain ⟨n, c⟩ := nc
      obtain ⟨_, hf⟩ := Heap.find_of_counter hc
      cases hz : (c.sub 1).1 with
      | false =>
        rw [allocate_of_zero E a h n c hb hf hz] at hok
        simp only [Except.ok.injEq, Prod.mk.injEq] at hok
        obtain ⟨_, _, hh⟩ := hok
        left; rw [← hh]
      | true =>
        rw [allocate_of_shared E a h n c hb hf hz] at hok
        obtain ⟨_, _, _, _, _, h4⟩ := allocate_null_post rfl hok
        right
        rw [h4]; simp [Heap.find, lookup, allocationsize]

theorem allocationsize_eq_mod (E : Env) (a : shared_message_memory_allocator) :
    allocationsize E a
      = (a.max_size + E.sizeof_counter + a.maxCounters * E.sizeof_counter) % SIZE_MOD := by
  simp [allocationsize, to_size_t, Nat.add_mod]

/-- Claim C7, amended (allocation size covers the layout): the size requested
from `malloc` is `max_size + sizeof (counter) + maxCounters * sizeof (counter)`
reduced modulo `2 ^ 64`; when that sum is below `2 ^ 64` and `allocate` returns
after creating a block, the block has exactly that many bytes, the payload
region `[data (), data () + size ())` starts after the counter, and that region
followed by `maxCounters` counters ends exactly at the end of the block.  The
pointer `msg_refcnt` is `data () + size ()` as a 64-bit pointer; when that
address is below `2 ^ 64`, as it is for a block inside the address space, the
payload region ends where the table `msg_refcnt` starts and the table ends
exactly at the end of the block. -/
theorem allocation_size_covers_layout (E : Env) (a a' : shared_message_memory_allocator)
    (h h' : Heap) (r : Nat) (hok : allocate E a h = Except.ok (r, a', h'))
    (hnew : h'.log ≠ h.log)
    (hsum : a.max_size + E.sizeof_counter + a.maxCounters * E.sizeof_counter < SIZE_MOD) :
    allocationsize E a = a.max_size + E.sizeof_counter + a.maxCounters * E.sizeof_counter ∧
    h'.log = HeapEvent.malloc a'.buf
      (a.max_size + E.sizeof_counter + a.maxCounters * E.sizeof_counter) :: h.log ∧
    (∃ c, h'.find a'.buf = some
      ⟨a'.max_size + E.sizeof_counter + a'.maxCounters * E.sizeof_counter, c⟩) ∧
    a'.buf + E.sizeof_counter = data E a' ∧
    data E a' + size a' + a'.maxCounters * E.sizeof_counter
      = a'.buf + (a'.max_size + E.sizeof_counter + a'.maxCounters * E.sizeof_counter) ∧
    a'.msg_refcnt = to_pointer (data E a' + size a') ∧
    (data E a' + size a' < SIZE_MOD →
      data E a' + size a' = a'.msg_refcnt ∧
      a'.msg_refcnt + a'.maxCounters * E.sizeof_counter
        = a'.buf + (a'.max_size + E.sizeof_counter
            + a'.maxCounters * E.sizeof_counter)) := by
  have hsz : allocationsize E a
      = a.max_size + E.sizeof_counter + a.maxCounters * E.sizeof_counter := by
    rw [allocationsize_eq_mod, Nat.mod_eq_of_lt hsum]
  obtain ⟨_, _, h3, _⟩ := allocate_post hok
  have hms : a'.max_size = a.max_size := by rw [h3]; rfl
  have hmc : a'.maxCounters = a.maxCounters := by rw [h3]; rfl
  have hbs : a'.bufsize = a.max_size := by rw [h3]; rfl
  have hrc : a'.msg_refcnt = to_pointer (a'.buf + E.sizeof_counter + a.max_size) := by
    conv_lhs => rw [h3]
    rfl
  have hds : data E a' + size a' = a'.buf + E.sizeof_counter + a.max_size := by
    simp only [data, size, hbs]
  rcases allocate_log hok with hl | ⟨hl, hf⟩
  · exact absurd hl hnew
  · rw [hsz] at hl hf
    refine ⟨hsz, hl, ⟨_, by rw [hms, hmc]; exact hf⟩, rfl, ?_, ?_, ?_⟩
    · rw [hds, hms, hmc]; omega
    · rw [hrc, hds]
    · intro hlt
      have hrc' : a'.msg_refcnt = a'.buf + E.sizeof_counter + a.max_size := by
        rw [hrc, to_pointer, Nat.mod_eq_of_lt (hds ▸ hlt)]
      refine ⟨by rw [hds, hrc'], ?_⟩
      rw [hrc', hms, hmc]; omega

/-- Witness for C7: the first `allocate` of the spec's scenario asks for
`256 + 4 + 8 * 4 = 292` bytes. -/
theorem allocation_size_covers_layout_witness :
    (allocate env64 (mk2 256 8) Heap.empty
      = Except.ok (20, ⟨16, 256, 256, 276, 8⟩,
          ⟨[(16, ⟨292, some ⟨1⟩⟩)], [HeapEvent.malloc 16 292]⟩) ∧
     [HeapEvent.malloc 16 292] ≠ [] ∧
     256 + env64.sizeof_counter + 8 * env64.sizeof_counter < SIZE_MOD ∧
     data env64 ⟨16, 256, 256, 276, 8⟩ + size ⟨16, 256, 256, 276, 8⟩ < SIZE_MOD) ∧
    allocationsize env64 (mk2 256 8) = 256 + env64.sizeof_counter + 8 * env64.sizeof_counter ∧
    data env64 ⟨16, 256, 256, 276, 8⟩ + size ⟨16, 256, 256, 276, 8⟩
      = (shared_message_memory_allocator.mk 16 256 256 276 8).msg_refcnt ∧
    (shared_message_memory_allocator.mk 16 256 256 276 8).msg_refcnt
        + (shared_message_memory_allocator.mk 16 256 256 276 8).maxCounters
          * env64.sizeof_counter
      = 16 + (256 + env64.sizeof_counter + 8 * env64.sizeof_counter) :=
  ⟨⟨by decide, by decide, by decide, by decide⟩,
   (allocation_size_covers_layout env64 (mk2 256 8) ⟨16, 256, 256, 276, 8⟩ Heap.empty
      ⟨[(16, ⟨292, some ⟨1⟩⟩)], [HeapEvent.malloc 16 292]⟩ 20
      (by decide) (by decide) (by decide)).1,
   (allocation_size_covers_layout env64 (mk2 256 8) ⟨16, 256, 256, 276, 8⟩ Heap.empty
      ⟨[(16, ⟨292, some ⟨1⟩⟩)], [HeapEvent.malloc 16 292]⟩ 20
      (by decide) (by decide) (by decide)).2.2.2.2.2.2 (by decide)⟩

/-- Counterexample to C7 as stated: with `max_size = 2 ^ 64 - 4` and one
counter of 4 bytes the sum is `2 ^ 64 + 4`, `allocate` asks `malloc` for 4
bytes and returns, and the payload region `[20, 20 + size ())` ends far beyond
the end `16 + 4` of the block; the 64-bit pointer `msg_refcnt` has wrapped
back to `buf`. -/
theorem allocation_size_counterexample :
    allocate env64 (mk2 18446744073709551612 1) Heap.empty
      = Except.ok (20, ⟨16, 18446744073709551612, 18446744073709551612, 16, 1⟩,
          ⟨[(16, ⟨4, some ⟨1⟩⟩)], [HeapEvent.malloc 16 4]⟩) ∧
    allocationsize env64 (mk2 18446744073709551612 1) = 4 ∧
    allocationsize env64 (mk2 18446744073709551612 1)
      ≠ 18446744073709551612 + env64.sizeof_counter + 1 * env64.sizeof_counter ∧
    ¬ (data env64 ⟨16, 18446744073709551612, 18446744073709551612, 16, 1⟩
        + size ⟨16, 18446744073709551612, 18446744073709551612, 16, 1⟩
      ≤ 16 + 4) := by
  refine ⟨by decide, by decide, by decide, by decide⟩

/-- Claim C8 (`release` detaches without freeing): in every state `release`
returns the value `buf` had (so `NULL` for an empty allocator), sets `buf` and
`msg_refcnt` to `NULL` and `bufsize` to 0, keeps `max_size` and `maxCounters`,
and leaves the heap as it was: the same blocks with the same counters, no
`malloc` and no `free`. -/
theorem release_detaches_without_freeing (a : shared_message_memory_allocator) (h : Heap) :
    (release a h).1 = a.buf ∧
    (release a h).2.1.buf = 0 ∧ (release a h).2.1.bufsize = 0 ∧
    (release a h).2.1.msg_refcnt = 0 ∧
    (release a h).2.1.max_size = a.max_size ∧
    (release a h).2.1.maxCounters = a.maxCounters ∧
    (release a h).2.2 = h ∧
    (release a h).2.2.find a.buf = h.find a.buf ∧
    (release a h).2.2.count a.buf = h.count a.buf ∧
    (release a h).2.2.freed = h.freed ∧
    (a.buf = 0 → (release a h).1 = 0) :=
  ⟨rfl, rfl, rfl, rfl, rfl, rfl, rfl, rfl, rfl, rfl, fun e => e⟩

/-- Witness for C8: releasing the buffer at 16 while its counter is 2. -/
theorem release_detaches_without_freeing_witness :
    release ⟨16, 256, 256, 276, 8⟩ ⟨[(16, ⟨292, some ⟨2⟩⟩)], [HeapEvent.malloc 16 292]⟩
      = (16, ⟨0, 0, 256, 0, 8⟩, ⟨[(16, ⟨292, some ⟨2⟩⟩)], [HeapEvent.malloc 16 292]⟩) ∧
    (release (mk2 256 8) Heap.empty).1 = 0 :=
  ⟨by decide,
   (release_detaches_without_freeing (mk2 256 8) Heap.empty).2.2.2.2.2.2.2.2.2.2 rfl⟩

namespace shared_message_memory_allocator

theorem deallocate_of_live (a : shared_message_memory_allocator) (h : Heap) (b : Block)
    (hp : a.buf ≠ 0) (hf : h.find a.buf = some b) :
    deallocate a h = Except.ok ({ a with buf := 0, bufsize := 0, msg_refcnt := 0 },
      ⟨erase a.buf h.blocks, HeapEvent.free a.buf :: h.log⟩) := by
  simp [deallocate, Heap.free, hp, hf, bind, Except.bind, pure, Except.pure]

theorem deallocate_of_null (a : shared_message_memory_allocator) (h : Heap)
    (hp : a.buf = 0) :
    deallocate a h = Except.ok ({ a with buf := 0, bufsize := 0, msg_refcnt := 0 }, h) := by
  simp [deallocate, Heap.free, hp, bind, Except.bind, pure, Except.pure]

theorem deallocate_of_dangling (a : shared_message_memory_allocator) (h : Heap)
    (hp : a.buf ≠ 0) (hf : h.find a.buf = none) :
    deallocate a h = Except.error Fault.undefined := by
  simp [deallocate, Heap.free, hp, hf, bind, Except.bind]

end shared_message_memory_allocator

/-- Claim C9 (`deallocate` frees unconditionally): when the allocator holds a
live block, whatever is at its base (a counter of any value, or none),
`deallocate` returns, frees that block by one `free` and leaves `buf` null,
`size ()` 0 and `msg_refcnt` null; on an empty allocator it returns and changes
neither the allocator nor the heap; and running it twice is the same as
running it once. -/
theorem deallocate_frees_unconditionally (a : shared_message_memory_allocator) (h : Heap) :
    (∀ b, a.buf ≠ 0 → h.find a.buf = some b →
      ∃ a' h', deallocate a h = Except.ok (a', h') ∧
        h'.live a.buf = false ∧ h'.blocks = erase a.buf h.blocks ∧
        h'.log = HeapEvent.free a.buf :: h.log ∧
        a'.buf = 0 ∧ size a' = 0 ∧ a'.msg_refcnt = 0 ∧
        a'.max_size = a.max_size ∧ a'.maxCounters = a.maxCounters) ∧
    (a.buf = 0 → a.bufsize = 0 → a.msg_refcnt = 0 → deallocate a h = Except.ok (a, h)) ∧
    (match deallocate a h with
      | Except.ok (a', h') => deallocate a' h'
      | Except.error e => Except.error e) = deallocate a h := by
  refine ⟨?_, ?_, ?_⟩
  · intro b hp hf
    refine ⟨_, _, deallocate_of_live a h b hp hf, ?_, rfl, rfl, rfl, rfl, rfl, rfl, rfl⟩
    simp [Heap.live, Heap.find, lookup_erase_same]
  · intro h1 h2 h3
    rw [deallocate_of_null a h h1]
    cases a
    simp only at h1 h2 h3
    subst h1 h2 h3
    rfl
  · by_cases hp : a.buf = 0
    · rw [deallocate_of_null a h hp]
      exact deallocate_of_null _ _ rfl
    · cases hf : h.find a.buf with
      | none => rw [deallocate_of_dangling a h hp hf]
      | some b =>
        rw [deallocate_of_live a h b hp hf]
        exact deallocate_of_null _ _ rfl

/-- Witness for C9: the buffer at 16 with counter 3 is freed. -/
theorem deallocate_frees_unconditionally_witness :
    ((16 : Nat) ≠ 0 ∧
      (Heap.mk [(16, ⟨292, some ⟨3⟩⟩)] [HeapEvent.malloc 16 292]).find 16
        = some ⟨292, some ⟨3⟩⟩) ∧
    deallocate ⟨16, 256, 256, 276, 8⟩ ⟨[(16, ⟨292, some ⟨3⟩⟩)], [HeapEvent.malloc 16 292]⟩
      = Except.ok (⟨0, 0, 256, 0, 8⟩, ⟨[], [HeapEvent.free 16, HeapEvent.malloc 16 292]⟩) ∧
    deallocate (mk2 256 8) Heap.empty = Except.ok (mk2 256 8, Heap.empty) ∧
    ∃ a' h', deallocate ⟨16, 256, 256, 276, 8⟩
        ⟨[(16, ⟨292, some ⟨3⟩⟩)], [HeapEvent.malloc 16 292]⟩ = Except.ok (a', h') ∧
      h'.live 16 = false ∧ a'.buf = 0 ∧ size a' = 0 := by
  refine ⟨⟨by decide, by decide⟩, by decide,
    (deallocate_frees_unconditionally (mk2 256 8) Heap.empty).2.1 rfl rfl rfl, ?_⟩
  obtain ⟨a', h', g1, g2, _, _, g5, g6, _⟩ :=
    (deallocate_frees_unconditionally ⟨16, 256, 256, 276, 8⟩
      ⟨[(16, ⟨292, some ⟨3⟩⟩)], [HeapEvent.malloc 16 292]⟩).1 ⟨292, some ⟨3⟩⟩
      (by decide) (by decide)
  exact ⟨a', h', g1, g2, g5, g6⟩

/-! ## Rounding lemmas -/

theorem log2_fuel_spec : ∀ (fuel n : Nat), 0 < n → n ≤ fuel →
    2 ^ log2_fuel fuel n ≤ n ∧ n < 2 ^ (log2_fuel fuel n + 1) := by
  intro fuel
  induction fuel with
  | zero => intro n h0 h1; omega
  | succ f ih =>
    intro n h0 h1
    by_cases h2 : n < 2
    · have : n = 1 := by omega
      subst this
      simp [log2_fuel]
    · have hd : 0 < n / 2 := Nat.div_pos (by omega) (by decide)
      have hf : n / 2 ≤ f := by omega
      obtain ⟨i1, i2⟩ := ih (n / 2) hd hf
      simp only [log2_fuel, h2, if_false]
      rw [pow_succ, pow_succ]
      rw [pow_succ] at i2
      constructor <;> omega

theorem floor_log2_spec (n : Nat) (h0 : 0 < n) :
    2 ^ floor_log2 n ≤ n ∧ n < 2 ^ (floor_log2 n + 1) :=
  log2_fuel_spec n n h0 (Nat.le_refl n)

theorem double_exponent_lower (a b : Nat) (ha : 0 < a) (hb : 0 < b) :
    b * 2 ^ 52 * 2 ^ (double_exponent a b).toNat
      ≤ a * 2 ^ (-(double_exponent a b)).toNat := by
  unfold double_exponent
  simp only
  split
  · assumption
  · obtain ⟨a1, _⟩ := floor_log2_spec a ha
    obtain ⟨_, b2⟩ := floor_log2_spec b hb
    generalize floor_log2 a = la at a1 ⊢
    generalize floor_log2 b = lb at b2 ⊢
    have hexp : (lb + 1) + 52 + ((la : Int) - lb - 52 - 1).toNat
        = la + (-((la : Int) - lb - 52 - 1)).toNat := by omega
    calc b * 2 ^ 52 * 2 ^ ((la : Int) - lb - 52 - 1).toNat
        ≤ 2 ^ (lb + 1) * 2 ^ 52 * 2 ^ ((la : Int) - lb - 52 - 1).toNat := by
          apply Nat.mul_le_mul_right
          apply Nat.mul_le_mul_right
          exact Nat.le_of_lt b2
      _ = 2 ^ la * 2 ^ (-((la : Int) - lb - 52 - 1)).toNat := by
          rw [← pow_add, ← pow_add, hexp, pow_add]
      _ ≤ a * 2 ^ (-((la : Int) - lb - 52 - 1)).toNat := Nat.mul_le_mul_right _ a1

theorem div_rne_ge (a b : Nat) : a / b ≤ div_rne a b := by
  unfold div_rne; split_ifs <;> omega

theorem div_rne_le (a b : Nat) : div_rne a b ≤ a / b + 1 := by
  unfold div_rne; split_ifs <;> omega

theorem div_rne_of_lt (a b : Nat) (h : 2 * (a % b) < b) : div_rne a b = a / b := by
  unfold div_rne; simp [h]

theorem div_rne_of_gt (a b : Nat) (h : b < 2 * (a % b)) : div_rne a b = a / b + 1 := by
  unfold div_rne
  have : ¬ 2 * (a % b) < b := by omega
  simp [h, this]

theorem ceil_div_rne (m t K : Nat) (ht : 0 < t) (hK : 0 < K) (htK : t < 2 * K) :
    (div_rne (m * K) t + K - 1) / K = (m + t - 1) / t := by
  have hm : t * (m / t) + m % t = m := Nat.div_add_mod m t
  have hr : m % t < t := Nat.mod_lt m ht
  generalize m / t = n at hm
  generalize m % t = r at hm hr
  subst hm
  rcases Nat.eq_zero_or_pos r with h0 | hpos
  · subst h0
    have e1 : (t * n + 0) * K = t * (n * K) := by ring
    have hq : t * (n * K) / t = n * K := Nat.mul_div_cancel_left _ ht
    have hmod : t * (n * K) % t = 0 := Nat.mul_mod_right _ _
    rw [e1, div_rne_of_lt _ _ (by rw [hmod]; omega), hq]
    have l1 : (n * K + K - 1) / K = n :=
      Nat.div_eq_of_lt_le (by omega) (by rw [Nat.succ_mul]; omega)
    have l2 : (t * n + 0 + t - 1) / t = n :=
      Nat.div_eq_of_lt_le (by rw [Nat.mul_comm]; omega)
        (by rw [Nat.succ_mul, Nat.mul_comm]; omega)
    rw [l1, l2]
  · have hlo : n * K ≤ (t * n + r) * K / t := by
      rw [Nat.le_div_iff_mul_le ht]
      nlinarith
    have hhi : (t * n + r) * K / t < (n + 1) * K := by
      rw [Nat.div_lt_iff_lt_mul ht]
      nlinarith
    have hD1 : div_rne ((t * n + r) * K) t ≤ (n + 1) * K := by
      have := div_rne_le ((t * n + r) * K) t
      omega
    have hD0 : n * K < div_rne ((t * n + r) * K) t := by
      rcases Nat.lt_or_ge (n * K) ((t * n + r) * K / t) with hlt | hge
      · exact Nat.lt_of_lt_of_le hlt (div_rne_ge _ _)
      · have hQ : (t * n + r) * K / t = n * K := by omega
        have hdm := Nat.div_add_mod ((t * n + r) * K) t
        rw [hQ] at hdm
        have hR : (t * n + r) * K % t = r * K := by nlinarith
        have hKr : K ≤ r * K := Nat.le_mul_of_pos_left K hpos
        rw [div_rne_of_gt _ _ (by rw [hR]; omega), hQ]
        omega
    have hnK : (n + 1) * K = n * K + K := Nat.succ_mul n K
    have l1 : (div_rne ((t * n + r) * K) t + K - 1) / K = n + 1 :=
      Nat.div_eq_of_lt_le (by omega) (by rw [Nat.succ_mul]; omega)
    have l2 : (t * n + r + t - 1) / t = n + 1 :=
      Nat.div_eq_of_lt_le (by rw [Nat.succ_mul, Nat.mul_comm]; omega)
        (by rw [Nat.succ_mul, Nat.succ_mul, Nat.mul_comm]; omega)
    rw [l1, l2]

/-- The result of `div_rne` is a nearest integer: twice its distance to `a / b`
is at most 1. -/
theorem div_rne_nearest (a b : Nat) (hb : 0 < b) :
    2 * a ≤ (2 * div_rne a b + 1) * b ∧ 2 * div_rne a b * b ≤ 2 * a + b := by
  have h1 := Nat.div_add_mod a b
  have h2 := Nat.mod_lt a hb
  generalize a / b = q at h1
  generalize a % b = r at h1 h2
  have e : ∀ x : Nat, (2 * x + 1) * b = 2 * (b * x) + b := by intro x; ring
  have e' : ∀ x : Nat, 2 * x * b = 2 * (b * x) := by intro x; ring
  have e2 : b * (q + 1) = b * q + b := by ring
  unfold div_rne
  rw [← h1]
  have hq : (b * q + r) / b = q := by
    rw [Nat.mul_comm]
    exact Nat.div_eq_of_lt_le (by omega) (by rw [Nat.succ_mul]; omega)
  have hr : (b * q + r) % b = r := by
    rw [Nat.mul_add_mod]; exact Nat.mod_eq_of_lt h2
  rw [hq, hr]
  split_ifs <;> simp only [e, e', e2] <;> constructor <;> omega

theorem double_exponent_upper (a b : Nat) (ha : 0 < a) (hb : 0 < b) :
    a * 2 ^ (-(double_exponent a b)).toNat
      < b * 2 ^ 53 * 2 ^ (double_exponent a b).toNat := by
  unfold double_exponent
  simp only
  obtain ⟨_, a2⟩ := floor_log2_spec a ha
  obtain ⟨b1, _⟩ := floor_log2_spec b hb
  generalize floor_log2 a = la at a2 ⊢
  generalize floor_log2 b = lb at b1 ⊢
  split
  · have hexp : la + 1 + (-((la : Int) - lb - 52)).toNat
        = lb + 53 + ((la : Int) - lb - 52).toNat := by omega
    calc a * 2 ^ (-((la : Int) - lb - 52)).toNat
        < 2 ^ (la + 1) * 2 ^ (-((la : Int) - lb - 52)).toNat :=
          Nat.mul_lt_mul_of_pos_right a2 (Nat.pos_pow_of_pos _ (by decide))
      _ = 2 ^ lb * 2 ^ 53 * 2 ^ ((la : Int) - lb - 52).toNat := by
          rw [← pow_add, ← pow_add, ← pow_add, hexp]
      _ ≤ b * 2 ^ 53 * 2 ^ ((la : Int) - lb - 52).toNat := by
          apply Nat.mul_le_mul_right
          apply Nat.mul_le_mul_right
          exact b1
  · rename_i hno
    have hlt := Nat.lt_of_not_le hno
    rcases Int.lt_or_le 0 ((la : Int) - lb - 52) with hd | hd
    · have e1 : (-((la : Int) - lb - 52 - 1)).toNat = 0 := by omega
      have e2 : (-((la : Int) - lb - 52)).toNat = 0 := by omega
      have e3 : ((la : Int) - lb - 52).toNat = ((la : Int) - lb - 52 - 1).toNat + 1 := by
        omega
      rw [e2, e3, pow_succ] at hlt
      rw [e1]
      have : (2 : Nat) ^ 53 = 2 ^ 52 * 2 := by norm_num
      rw [this]
      calc a * 2 ^ 0 < b * 2 ^ 52 * (2 ^ ((la : Int) - lb - 52 - 1).toNat * 2) := hlt
        _ = b * (2 ^ 52 * 2) * 2 ^ ((la : Int) - lb - 52 - 1).toNat := by ring
    · have e1 : ((la : Int) - lb - 52 - 1).toNat = 0 := by omega
      have e2 : ((la : Int) - lb - 52).toNat = 0 := by omega
      have e3 : (-((la : Int) - lb - 52 - 1)).toNat
          = (-((la : Int) - lb - 52)).toNat + 1 := by omega
      rw [e2] at hlt
      rw [e1, e3, pow_succ]
      have : (2 : Nat) ^ 53 = 2 ^ 52 * 2 := by norm_num
      rw [this]
      calc a * (2 ^ (-((la : Int) - lb - 52)).toNat * 2)
          = a * 2 ^ (-((la : Int) - lb - 52)).toNat * 2 := by ring
        _ < b * 2 ^ 52 * 2 ^ 0 * 2 := Nat.mul_lt_mul_of_pos_right hlt (by decide)
        _ = b * (2 ^ 52 * 2) * 2 ^ 0 := by ring

/-- The significand that `round53` returns for a positive quotient has 53 bits
(or is `2 ^ 53`, when rounding carries into the next binade). -/
theorem round53_mant_bounds (a b : Nat) (ha : 0 < a) (hb : 0 < b) :
    2 ^ 52 ≤ (round53 a b).mant ∧ (round53 a b).mant ≤ 2 ^ 53 := by
  have hne : a ≠ 0 := by omega
  have hlo := double_exponent_lower a b ha hb
  have hhi := double_exponent_upper a b ha hb
  simp only [round53, hne, if_false]
  generalize double_exponent a b = e at hlo hhi ⊢
  have hD : 0 < b * 2 ^ e.toNat := Nat.mul_pos hb (Nat.pos_pow_of_pos _ (by decide))
  generalize a * 2 ^ (-e).toNat = N at hlo hhi ⊢
  have hlo' : 2 ^ 52 * (b * 2 ^ e.toNat) ≤ N := by
    have : b * 2 ^ 52 * 2 ^ e.toNat = 2 ^ 52 * (b * 2 ^ e.toNat) := by ring
    rw [← this]; exact hlo
  have hhi' : N < 2 ^ 53 * (b * 2 ^ e.toNat) := by
    have : b * 2 ^ 53 * 2 ^ e.toNat = 2 ^ 53 * (b * 2 ^ e.toNat) := by ring
    rw [← this]; exact hhi
  generalize b * 2 ^ e.toNat = D at hD hlo' hhi' ⊢
  have h1 : 2 ^ 52 ≤ N / D := (Nat.le_div_iff_mul_le hD).2 hlo'
  have h2 : N / D < 2 ^ 53 := (Nat.div_lt_iff_lt_mul hD).2 hhi'
  have h3 := div_rne_ge N D
  have h4 := div_rne_le N D
  constructor <;> omega

/-- For operands below `2 ^ 53` the rounded quotient has the ceiling of the
exact quotient. -/
theorem ceil_round53 (m t : Nat) (hm : m < 2 ^ 53) (ht : 0 < t) :
    (round53 m t).ceil = (m + t - 1) / t := by
  rcases Nat.eq_zero_or_pos m with h0 | hpos
  · subst h0
    have : (t - 1) / t = 0 := Nat.div_eq_of_lt (by omega)
    simp [round53, double.ceil, this]
  · have hne : m ≠ 0 := by omega
    have hlow := double_exponent_lower m t hpos ht
    simp only [round53, hne, if_false, double.ceil]
    generalize double_exponent m t = e at hlow ⊢
    rcases Int.lt_or_le e 0 with hneg | hnn
    · have e0 : e.toNat = 0 := by omega
      have hKpos : 0 < 2 ^ (-e).toNat := Nat.pos_pow_of_pos _ (by decide)
      rw [e0] at hlow ⊢
      simp only [pow_zero, Nat.mul_one] at hlow ⊢
      generalize 2 ^ (-e).toNat = K at hlow hKpos ⊢
      have htK : t < 2 * K := by
        have h1 : t * 2 ^ 52 < 2 ^ 53 * K :=
          Nat.lt_of_le_of_lt hlow (Nat.mul_lt_mul_of_pos_right hm hKpos)
        have h2 : (2 : Nat) ^ 53 * K = (2 * K) * 2 ^ 52 := by ring
        rw [h2] at h1
        exact Nat.lt_of_mul_lt_mul_right h1
      exact ceil_div_rne m t K ht hKpos htK
    · have e0 : (-e).toNat = 0 := by omega
      have hKpos : 0 < 2 ^ e.toNat := Nat.pos_pow_of_pos _ (by decide)
      rw [e0] at hlow ⊢
      simp only [pow_zero, Nat.mul_one] at hlow ⊢
      generalize 2 ^ e.toNat = K at hlow hKpos ⊢
      have h1 : t * K * 2 ^ 52 < 2 * 2 ^ 52 := by
        have : t * 2 ^ 52 * K = t * K * 2 ^ 52 := by ring
        rw [← this]
        have h53 : (2 : Nat) * 2 ^ 52 = 2 ^ 53 := by norm_num
        rw [h53]
        exact Nat.lt_of_le_of_lt hlow hm
      have h2 : t * K < 2 := Nat.lt_of_mul_lt_mul_right h1
      have htK : t * K = 1 := by
        have : 0 < t * K := Nat.mul_pos ht hKpos
        omega
      have ht1 : t = 1 := Nat.eq_one_of_mul_eq_one_right htK
      have hK1 : K = 1 := Nat.eq_one_of_mul_eq_one_left htK
      subst ht1 hK1
      simp [div_rne, Nat.mod_one]

/-- Claim C10, amended (default counter-table size): when `max_size` and the
positive threshold `msg_t::max_vsm_size` are below `2 ^ 53`, so that both
convert to `double` without rounding, the one-argument constructor returns an
empty allocator with that `max_size` whose `maxCounters` is the exact integer
ceiling of `max_size / max_vsm_size`: the least `c` with
`max_size ≤ c * max_vsm_size`, which is
`(max_size + max_vsm_size - 1) / max_vsm_size`. -/
theorem default_maxCounters_is_ceiling (E : Env) (m : Nat) (ht0 : 0 < E.max_vsm_size)
    (ht : E.max_vsm_size < 2 ^ 53) (hm : m < 2 ^ 53) :
    ∃ c, mk1 E m = Except.ok (mk2 m c) ∧
      c = (m + E.max_vsm_size - 1) / E.max_vsm_size ∧
      m ≤ c * E.max_vsm_size ∧ ∀ c', m ≤ c' * E.max_vsm_size → c ≤ c' := by
  have hne : E.max_vsm_size ≠ 0 := by omega
  have hdm : to_double m = ⟨m, 0⟩ := by unfold to_double; rw [if_pos hm]
  have hdt : to_double E.max_vsm_size = ⟨E.max_vsm_size, 0⟩ := by
    unfold to_double; rw [if_pos ht]
  have hdiv : (to_double m).div (to_double E.max_vsm_size)
      = some (round53 m E.max_vsm_size) := by
    rw [hdm, hdt]
    simp [double.div, hne]
  have hceil := ceil_round53 m E.max_vsm_size hm ht0
  have hle : (m + E.max_vsm_size - 1) / E.max_vsm_size ≤ m := by
    rw [Nat.div_le_iff_le_mul_add_pred ht0]
    have : m ≤ E.max_vsm_size * m := Nat.le_mul_of_pos_left m ht0
    omega
  have hfit : (round53 m E.max_vsm_size).ceil < SIZE_MOD := by
    rw [hceil]
    have : (2 : Nat) ^ 53 < SIZE_MOD := by decide
    omega
  refine ⟨(m + E.max_vsm_size - 1) / E.max_vsm_size, ?_, rfl, ?_, ?_⟩
  · rw [hceil] at hfit
    simp only [mk1, hdiv, hceil]
    rw [if_pos hfit]
    rfl
  · have h1 := Nat.div_add_mod (m + E.max_vsm_size - 1) E.max_vsm_size
    have h2 := Nat.mod_lt (m + E.max_vsm_size - 1) ht0
    rw [Nat.mul_comm]
    omega
  · intro c' hc'
    have : (m + E.max_vsm_size - 1) / E.max_vsm_size < c' + 1 := by
      rw [Nat.div_lt_iff_lt_mul ht0, Nat.succ_mul]
      omega
    omega

/-- Witness for C10: `max_size = 256` and threshold 32 give 8 counters. -/
theorem default_maxCounters_is_ceiling_witness :
    (0 < env64.max_vsm_size ∧ env64.max_vsm_size < 2 ^ 53 ∧ 256 < 2 ^ 53) ∧
    mk1 env64 256 = Except.ok (mk2 256 8) ∧
    ∃ c, mk1 env64 256 = Except.ok (mk2 256 c) ∧
      c = (256 + env64.max_vsm_size - 1) / env64.max_vsm_size ∧
      256 ≤ c * env64.max_vsm_size ∧ ∀ c', 256 ≤ c' * env64.max_vsm_size → c ≤ c' :=
  ⟨⟨by decide, by decide, by decide⟩, by decide,
   default_maxCounters_is_ceiling env64 256 (by decide) (by decide) (by decide)⟩

/-- Counterexample to C10 as stated: `max_size = 2 ^ 58 + 32` with threshold 32.
The neighbouring doubles are `2 ^ 58` and `2 ^ 58 + 64`; the conversion yields
`2 ^ 58`, the quotient is `2 ^ 53`, and the constructor sets
`maxCounters = 2 ^ 53`, one less than the ceiling `2 ^ 53 + 1`: that many
counters of 32 bytes do not cover `max_size`. -/
theorem default_maxCounters_counterexample :
    to_double 288230376151711776 = ⟨4503599627370496, 6⟩ ∧
    mk1 env64 288230376151711776
      = Except.ok (mk2 288230376151711776 9007199254740992) ∧
    (288230376151711776 + 32 - 1) / 32 = 9007199254740993 ∧
    ¬ (288230376151711776 ≤ 9007199254740992 * env64.max_vsm_size) := by
  refine ⟨by decide, by decide, by decide, by decide⟩

/-! ## What a returning operation did -/

namespace shared_message_memory_allocator

theorem allocate_cases {E : Env} {a a' : shared_message_memory_allocator} {h h' : Heap}
    {r : Nat} (hok : allocate E a h = Except.ok (r, a', h')) :
    (a.buf = 0 ∧
      h'.blocks = (a'.buf, ⟨allocationsize E a, some ⟨1⟩⟩) :: h.blocks) ∨
    (∃ n c, a.buf ≠ 0 ∧ h.find a.buf = some ⟨n, some c⟩ ∧ (c.sub 1).1 = false ∧
      a'.buf = a.buf ∧ h'.blocks = store a.buf ⟨n, some ⟨1⟩⟩ h.blocks) ∨
    (∃ n c, a.buf ≠ 0 ∧ h.find a.buf = some ⟨n, some c⟩ ∧ (c.sub 1).1 = true ∧
      h'.blocks = (a'.buf, ⟨allocationsize E a, some ⟨1⟩⟩)
        :: store a.buf ⟨n, some (c.sub 1).2⟩ h.blocks) := by
  by_cases hb : a.buf = 0
  · obtain ⟨_, _, _, _, _, h4⟩ := allocate_null_post hb hok
    left
    exact ⟨hb, by rw [h4]⟩
  · cases hc : h.counter a.buf with
    | error e => rw [allocate_of_fault E a h e hb hc] at hok; cases hok
    | ok nc =>
      obtain ⟨n, c⟩ := nc
      obtain ⟨_, hf⟩ := Heap.find_of_counter hc
      cases hz : (c.sub 1).1 with
      | false =>
        rw [allocate_of_zero E a h n c hb hf hz] at hok
        simp only [Except.ok.injEq, Prod.mk.injEq] at hok
        obtain ⟨_, ha, hh⟩ := hok
        right; left
        refine ⟨n, c, hb, hf, hz, ?_, ?_⟩
        · rw [← ha]; rfl
        · rw [← hh]
      | true =>
        rw [allocate_of_shared E a h n c hb hf hz] at hok
        obtain ⟨_, _, _, _, _, h4⟩ := allocate_null_post rfl hok
        right; right
        refine ⟨n, c, hb, hf, hz, ?_⟩
        rw [h4]; rfl

theorem inc_ref_cases {a : shared_message_memory_allocator} {h h' : Heap}
    (hok : inc_ref a h = Except.ok h') :
    ∃ n c, a.buf ≠ 0 ∧ h.find a.buf = some ⟨n, some c⟩ ∧
      h' = ⟨store a.buf ⟨n, some ⟨(c.value + 1) % INTEGER_MOD⟩⟩ h.blocks, h.log⟩ := by
  cases hc : h.counter a.buf with
  | error e =>
    simp [inc_ref, Heap.add, hc, bind, Except.bind] at hok
  | ok nc =>
    obtain ⟨n, c⟩ := nc
    obtain ⟨hp, hf⟩ := Heap.find_of_counter hc
    rw [inc_ref_of_find a h n c hp hf] at hok
    exact ⟨n, c, hp, hf, (Except.ok.inj hok).symm⟩

theorem call_dec_ref_cases {p : Nat} {h h' : Heap}
    (hok : call_dec_ref p h = Except.ok h') :
    p ≠ 0 ∧ ∃ n c, h.find p = some ⟨n, some c⟩ ∧
      (((c.sub 1).1 = true ∧ h' = ⟨store p ⟨n, some (c.sub 1).2⟩ h.blocks, h.log⟩) ∨
       ((c.sub 1).1 = false ∧ h' = ⟨erase p h.blocks, HeapEvent.free p :: h.log⟩)) := by
  by_cases hp : p = 0
  · simp [call_dec_ref, hp, bind, Except.bind, throw, throwThe, MonadExceptOf.throw] at hok
  · refine ⟨hp, ?_⟩
    cases hc : h.counter p with
    | error e => rw [call_dec_ref_of_fault h p e hp hc] at hok; cases hok
    | ok nc =>
      obtain ⟨n, c⟩ := nc
      obtain ⟨_, hf⟩ := Heap.find_of_counter hc
      refine ⟨n, c, hf, ?_⟩
      cases hz : (c.sub 1).1 with
      | false =>
        rw [call_dec_ref_of_last h p n c hp hf hz] at hok
        exact Or.inr ⟨rfl, (Except.ok.inj hok).symm⟩
      | true =>
        rw [call_dec_ref_of_shared h p n c hp hf hz] at hok
        exact Or.inl ⟨rfl, (Except.ok.inj hok).symm⟩

theorem deallocate_cases {a a' : shared_message_memory_allocator} {h h' : Heap}
    (hok : deallocate a h = Except.ok (a', h')) :
    a' = { a with buf := 0, bufsize := 0, msg_refcnt := 0 } ∧
    ((a.buf = 0 ∧ h' = h) ∨
     (a.buf ≠ 0 ∧ ∃ b, h.find a.buf = some b ∧
        h' = ⟨erase a.buf h.blocks, HeapEvent.free a.buf :: h.log⟩)) := by
  by_cases hp : a.buf = 0
  · rw [deallocate_of_null a h hp] at hok
    simp only [Except.ok.injEq, Prod.mk.injEq] at hok
    exact ⟨hok.1.symm, Or.inl ⟨hp, hok.2.symm⟩⟩
  · cases hf : h.find a.buf with
    | none => rw [deallocate_of_dangling a h hp hf] at hok; cases hok
    | some b =>
      rw [deallocate_of_live a h b hp hf] at hok
      simp only [Except.ok.injEq, Prod.mk.injEq] at hok
      exact ⟨hok.1.symm, Or.inr ⟨hp, b, rfl, hok.2.symm⟩⟩

/-- The one-argument constructor returns, when it returns, what the
two-argument constructor returns for some number of counters. -/
theorem mk1_eq_mk2 {E : Env} {m : Nat} {a : shared_message_memory_allocator}
    (hok : mk1 E m = Except.ok a) : a = mk2 m a.maxCounters := by
  unfold mk1 at hok
  split at hok
  · cases hok
  · split at hok
    · cases hok; rfl
    · cases hok

end shared_message_memory_allocator

/-! ## Steps and reachable states -/

theorem step_allocate_ok {E : Env} {a a' : shared_message_memory_allocator} {h h' : Heap}
    (hs : step E Op.allocate (a, h) = Except.ok (a', h')) :
    ∃ r, allocate E a h = Except.ok (r, a', h') := by
  simp only [step] at hs
  split at hs
  · rename_i r a1 h1 heq
    simp only [Except.ok.injEq, Prod.mk.injEq] at hs
    exact ⟨r, by rw [heq, hs.1, hs.2]⟩
  · cases hs

theorem step_inc_ref_ok {E : Env} {a a' : shared_message_memory_allocator} {h h' : Heap}
    (hs : step E Op.inc_ref (a, h) = Except.ok (a', h')) :
    a' = a ∧ inc_ref a h = Except.ok h' := by
  simp only [step] at hs
  split at hs
  · rename_i h1 heq
    simp only [Except.ok.injEq, Prod.mk.injEq] at hs
    exact ⟨hs.1.symm, by rw [heq, hs.2]⟩
  · cases hs

theorem step_call_dec_ref_ok {E : Env} {a a' : shared_message_memory_allocator}
    {h h' : Heap} {hint : Nat}
    (hs : step E (Op.call_dec_ref hint) (a, h) = Except.ok (a', h')) :
    a' = a ∧ call_dec_ref hint h = Except.ok h' := by
  simp only [step] at hs
  split at hs
  · rename_i h1 heq
    simp only [Except.ok.injEq, Prod.mk.injEq] at hs
    exact ⟨hs.1.symm, by rw [heq, hs.2]⟩
  · cases hs

theorem step_release_ok {E : Env} {a a' : shared_message_memory_allocator} {h h' : Heap}
    (hs : step E Op.release (a, h) = Except.ok (a', h')) :
    a' = { a with buf := 0, bufsize := 0, msg_refcnt := 0 } ∧ h' = h := by
  simp only [step, release, Except.ok.injEq, Prod.mk.injEq] at hs
  exact ⟨hs.1.symm, hs.2.symm⟩

theorem step_deallocate_ok {E : Env} {a a' : shared_message_memory_allocator} {h h' : Heap}
    (hs : step E Op.deallocate (a, h) = Except.ok (a', h')) :
    deallocate a h = Except.ok (a', h') := hs

/-- A run that returns shows that its final state is reachable. -/
theorem reach_of_run (E : Env) : ∀ (ops : List Op) (s0 s1 s : State),
    Reach E any_op s0 s1 → run E ops s1 = Except.ok s → Reach E any_op s0 s := by
  intro ops
  induction ops with
  | nil =>
    intro s0 s1 s hr hrun
    simp only [run, Except.ok.injEq] at hrun
    exact hrun ▸ hr
  | cons op ops ih =>
    intro s0 s1 s hr hrun
    simp only [run] at hrun
    cases hst : step E op s1 with
    | error e => rw [hst] at hrun; cases hrun
    | ok s2 =>
      rw [hst] at hrun
      exact ih s0 s2 s (Reach.next hr trivial hst) hrun

/-- The data members in every reachable state: `max_size` and `maxCounters`
are those of the constructor; with `buf` null the other two are null; with
`buf` non-null they are `max_size` and the end of the payload region as a
64-bit pointer. -/
theorem fields_invariant (E : Env) (allowed : Op → State → Prop) (ms mc : Nat) (h0 : Heap)
    (s : State) (hr : Reach E allowed (mk2 ms mc, h0) s) :
    s.1.max_size = ms ∧ s.1.maxCounters = mc ∧
    (s.1.buf = 0 → s.1.bufsize = 0 ∧ s.1.msg_refcnt = 0) ∧
    (s.1.buf ≠ 0 → s.1.bufsize = ms ∧
      s.1.msg_refcnt = to_pointer (s.1.buf + E.sizeof_counter + ms)) := by
  induction hr with
  | init => exact ⟨rfl, rfl, fun _ => ⟨rfl, rfl⟩, fun hne => absurd rfl hne⟩
  | @next s s1 op _ _ hstep ih =>
    obtain ⟨a, h⟩ := s
    obtain ⟨a1, h1⟩ := s1
    obtain ⟨i1, i2, i3, i4⟩ := ih
    simp only at i1 i2 i3 i4
    cases op with
    | allocate =>
      obtain ⟨r, hok⟩ := step_allocate_ok hstep
      obtain ⟨g1, _, g3, _⟩ := allocate_post hok
      have e1 : a1.max_size = a.max_size := by rw [g3]; rfl
      have e2 : a1.maxCounters = a.maxCounters := by rw [g3]; rfl
      have e3 : a1.bufsize = a.max_size := by rw [g3]; rfl
      have e4 : a1.msg_refcnt = to_pointer (a1.buf + E.sizeof_counter + a.max_size) := by
        conv_lhs => rw [g3]
        rfl
      refine ⟨by simp only [e1, i1], by simp only [e2, i2], fun h0' => absurd h0' g1, fun _ => ?_⟩
      simp only [e3, e4, i1, and_self]
    | inc_ref =>
      obtain ⟨e, _⟩ := step_inc_ref_ok hstep
      subst e
      exact ⟨i1, i2, i3, i4⟩
    | release =>
      obtain ⟨e, _⟩ := step_release_ok hstep
      subst e
      exact ⟨i1, i2, fun _ => ⟨rfl, rfl⟩, fun hne => absurd rfl hne⟩
    | deallocate =>
      obtain ⟨e, _⟩ := deallocate_cases (step_deallocate_ok hstep)
      subst e
      exact ⟨i1, i2, fun _ => ⟨rfl, rfl⟩, fun hne => absurd rfl hne⟩
    | call_dec_ref hint =>
      obtain ⟨e, _⟩ := step_call_dec_ref_ok hstep
      subst e
      exact ⟨i1, i2, i3, i4⟩

/-- Claim C11 (explicit-count constructor): the two-argument constructor gives
`max_size = bufsize_`, `maxCounters = maxMessages` without any rounding, `buf`
and `msg_refcnt` null and `size ()` 0.  It does not touch the heap, and neither
`release` nor `deallocate` on the new object does; the first `malloc` is the
one of the first `allocate`, for `allocationsize` bytes. -/
theorem explicit_count_constructor (E : Env) (bufsize_ maxMessages : Nat) (h : Heap) :
    (mk2 bufsize_ maxMessages).max_size = bufsize_ ∧
    (mk2 bufsize_ maxMessages).maxCounters = maxMessages ∧
    (mk2 bufsize_ maxMessages).buf = 0 ∧
    (mk2 bufsize_ maxMessages).msg_refcnt = 0 ∧
    size (mk2 bufsize_ maxMessages) = 0 ∧
    release (mk2 bufsize_ maxMessages) h = (0, mk2 bufsize_ maxMessages, h) ∧
    deallocate (mk2 bufsize_ maxMessages) h
      = Except.ok (mk2 bufsize_ maxMessages, h) ∧
    (∀ r a' h', allocate E (mk2 bufsize_ maxMessages) h = Except.ok (r, a', h') →
      h'.log = HeapEvent.malloc a'.buf (allocationsize E (mk2 bufsize_ maxMessages))
        :: h.log) := by
  refine ⟨rfl, rfl, rfl, rfl, rfl, rfl, deallocate_of_null _ _ rfl, ?_⟩
  intro r a' h' hok
  obtain ⟨_, _, _, _, _, h4⟩ := allocate_null_post rfl hok
  rw [h4]

/-- Witness for C11: the allocator of the spec's scenario; its first
`allocate` makes the first `malloc`. -/
theorem explicit_count_constructor_witness :
    mk2 256 8 = ⟨0, 0, 256, 0, 8⟩ ∧
    allocate env64 (mk2 256 8) Heap.empty
      = Except.ok (20, ⟨16, 256, 256, 276, 8⟩,
          ⟨[(16, ⟨292, some ⟨1⟩⟩)], [HeapEvent.malloc 16 292]⟩) ∧
    (Heap.mk [(16, ⟨292, some ⟨1⟩⟩)] [HeapEvent.malloc 16 292]).log
      = HeapEvent.malloc 16 (allocationsize env64 (mk2 256 8)) :: Heap.empty.log :=
  ⟨by decide, by decide,
   (explicit_count_constructor env64 256 8 Heap.empty).2.2.2.2.2.2.2
     20 ⟨16, 256, 256, 276, 8⟩ ⟨[(16, ⟨292, some ⟨1⟩⟩)], [HeapEvent.malloc 16 292]⟩
     (by decide)⟩

/-- Claim C14, amended (`bufsize` invariant): in every state reached from
either constructor by any sequence of `allocate`, `release`, `deallocate`,
`inc_ref` (and the callback), `max_size` is the one given to the constructor,
`bufsize` is `max_size` whenever `buf` is non-null and 0 whenever `buf` is
null; hence a nonzero `bufsize` implies a non-null `buf`, and for
`max_size > 0` `bufsize` is nonzero if and only if `buf` is non-null. -/
theorem bufsize_tracks_buf (E : Env) (ms mc : Nat) (a0 : shared_message_memory_allocator)
    (h0 : Heap) (s : State)
    (hctor : a0 = mk2 ms mc ∨ mk1 E ms = Except.ok a0)
    (hr : Reach E any_op (a0, h0) s) :
    s.1.max_size = ms ∧
    (s.1.buf ≠ 0 → s.1.bufsize = ms) ∧
    (s.1.buf = 0 → s.1.bufsize = 0) ∧
    (s.1.bufsize ≠ 0 → s.1.buf ≠ 0) ∧
    (0 < ms → (s.1.bufsize ≠ 0 ↔ s.1.buf ≠ 0)) := by
  have hmk : a0 = mk2 ms a0.maxCounters := by
    rcases hctor with e | e
    · rw [e]; rfl
    · exact mk1_eq_mk2 e
  rw [hmk] at hr
  obtain ⟨i1, _, i3, i4⟩ := fields_invariant E any_op ms _ h0 s hr
  refine ⟨i1, fun hne => (i4 hne).1, fun he => (i3 he).1, ?_, ?_⟩
  · intro hb he
    exact hb (i3 he).1
  · intro hpos
    constructor
    · intro hb he
      exact hb (i3 he).1
    · intro hne hb
      rw [(i4 hne).1] at hb
      omega

/-- Witness for C14: the spec's scenario allocator after `allocate`,
`inc_ref`, `allocate`. -/
theorem bufsize_tracks_buf_witness :
    ((mk2 256 8 = mk2 256 8 ∨ mk1 env64 256 = Except.ok (mk2 256 8)) ∧
      Reach env64 any_op (mk2 256 8, Heap.empty)
        (⟨324, 256, 256, 584, 8⟩,
          ⟨[(324, ⟨292, some ⟨1⟩⟩), (16, ⟨292, some ⟨1⟩⟩)],
           [HeapEvent.malloc 324 292, HeapEvent.malloc 16 292]⟩)) ∧
    (0 < 256 → ((256 : Nat) ≠ 0 ↔ (324 : Nat) ≠ 0)) := by
  have hr : Reach env64 any_op (mk2 256 8, Heap.empty)
      (⟨324, 256, 256, 584, 8⟩,
        ⟨[(324, ⟨292, some ⟨1⟩⟩), (16, ⟨292, some ⟨1⟩⟩)],
         [HeapEvent.malloc 324 292, HeapEvent.malloc 16 292]⟩) :=
    reach_of_run env64 [Op.allocate, Op.inc_ref, Op.allocate] _ _ _ Reach.init (by decide)
  exact ⟨⟨Or.inl rfl, hr⟩,
    (bufsize_tracks_buf env64 256 8 (mk2 256 8) Heap.empty _ (Or.inl rfl) hr).2.2.2.2⟩

/-- Counterexample to C14 as stated: with `max_size = 0` the state after
`allocate` has a non-null `buf` (a block of `0 + 4 + 8 * 4` bytes at 16) and
`bufsize = 0`. -/
theorem bufsize_zero_counterexample :
    Reach env64 any_op (mk2 0 8, Heap.empty)
      (⟨16, 0, 0, 20, 8⟩, ⟨[(16, ⟨36, some ⟨1⟩⟩)], [HeapEvent.malloc 16 36]⟩) ∧
    ¬ ((shared_message_memory_allocator.mk 16 0 0 20 8).bufsize ≠ 0 ↔
        (shared_message_memory_allocator.mk 16 0 0 20 8).buf ≠ 0) := by
  refine ⟨reach_of_run env64 [Op.allocate] _ _ _ Reach.init (by decide), by decide⟩

/-- Claim C15, amended (counter-table pointer invariant): in every state
reached from either constructor by any sequence of `allocate`, `release`,
`deallocate`, `inc_ref` (and the callback), `msg_refcnt` is null when `buf` is
null, and with `buf` non-null it is `buf + sizeof (counter) + max_size`
reduced modulo `2 ^ 64`, the address after the payload region of the current
buffer as a 64-bit pointer.  When `buf + sizeof (counter) + max_size` is below
`2 ^ 64`, `msg_refcnt` is null exactly when `buf` is null, and with `buf`
non-null it is `buf + sizeof (counter) + max_size`, the first byte after the
payload region `[data (), data () + size ())` of the current buffer. -/
theorem msg_refcnt_tracks_buf (E : Env) (ms mc : Nat)
    (a0 : shared_message_memory_allocator) (h0 : Heap) (s : State)
    (hctor : a0 = mk2 ms mc ∨ mk1 E ms = Except.ok a0)
    (hr : Reach E any_op (a0, h0) s) :
    (s.1.buf = 0 → s.1.msg_refcnt = 0) ∧
    (s.1.buf ≠ 0 →
      s.1.msg_refcnt = to_pointer (s.1.buf + E.sizeof_counter + s.1.max_size) ∧
      s.1.msg_refcnt = to_pointer (data E s.1 + size s.1)) ∧
    (s.1.buf + E.sizeof_counter + s.1.max_size < SIZE_MOD →
      (s.1.msg_refcnt = 0 ↔ s.1.buf = 0) ∧
      (s.1.buf ≠ 0 →
        s.1.msg_refcnt = s.1.buf + E.sizeof_counter + s.1.max_size ∧
        s.1.msg_refcnt = data E s.1 + size s.1)) := by
  have hmk : a0 = mk2 ms a0.maxCounters := by
    rcases hctor with e | e
    · rw [e]; rfl
    · exact mk1_eq_mk2 e
  rw [hmk] at hr
  obtain ⟨i1, _, i3, i4⟩ := fields_invariant E any_op ms _ h0 s hr
  have hwrap : s.1.buf ≠ 0 →
      s.1.msg_refcnt = to_pointer (s.1.buf + E.sizeof_counter + s.1.max_size) ∧
      s.1.msg_refcnt = to_pointer (data E s.1 + size s.1) := by
    intro hne
    obtain ⟨g1, g2⟩ := i4 hne
    refine ⟨by rw [g2, i1], ?_⟩
    simp only [data, size, g1, g2]
  refine ⟨fun hb => (i3 hb).2, hwrap, ?_⟩
  intro hlt
  have hexact : s.1.buf ≠ 0 →
      s.1.msg_refcnt = s.1.buf + E.sizeof_counter + s.1.max_size := by
    intro hne
    rw [(hwrap hne).1, to_pointer, Nat.mod_eq_of_lt hlt]
  refine ⟨⟨?_, fun hb => (i3 hb).2⟩, fun hne => ⟨hexact hne, ?_⟩⟩
  · intro hm
    by_contra hne
    have := hexact hne
    omega
  · rw [hexact hne]
    obtain ⟨g1, _⟩ := i4 hne
    simp only [data, size, g1, i1]

/-- Witness for C15: after `allocate`, `inc_ref`, `allocate` the table pointer
follows the second buffer, `324 + 4 + 256`, not the detached one at 16. -/
theorem msg_refcnt_tracks_buf_witness :
    ((mk2 256 8 = mk2 256 8 ∨ mk1 env64 256 = Except.ok (mk2 256 8)) ∧
      Reach env64 any_op (mk2 256 8, Heap.empty)
        (⟨324, 256, 256, 584, 8⟩,
          ⟨[(324, ⟨292, some ⟨1⟩⟩), (16, ⟨292, some ⟨1⟩⟩)],
           [HeapEvent.malloc 324 292, HeapEvent.malloc 16 292]⟩) ∧
      324 + env64.sizeof_counter + 256 < SIZE_MOD ∧ (324 : Nat) ≠ 0) ∧
    ((584 : Nat) = 0 ↔ (324 : Nat) = 0) ∧ (584 : Nat) = 324 + env64.sizeof_counter + 256 := by
  have hr : Reach env64 any_op (mk2 256 8, Heap.empty)
      (⟨324, 256, 256, 584, 8⟩,
        ⟨[(324, ⟨292, some ⟨1⟩⟩), (16, ⟨292, some ⟨1⟩⟩)],
         [HeapEvent.malloc 324 292, HeapEvent.malloc 16 292]⟩) :=
    reach_of_run env64 [Op.allocate, Op.inc_ref, Op.allocate] _ _ _ Reach.init (by decide)
  have key := (msg_refcnt_tracks_buf env64 256 8 (mk2 256 8) Heap.empty _ (Or.inl rfl)
    hr).2.2 (by decide)
  exact ⟨⟨Or.inl rfl, hr, by decide, by decide⟩, key.1, (key.2 (by decide)).1⟩

/-- Counterexample to C15 as stated.  With `max_size = 2 ^ 64 - 20` and five
counters `allocate` asks for `4` bytes, gets the block at 16, and
`buf + 4 + max_size` is `2 ^ 64`: `msg_refcnt` is null while `buf` is not.
With `max_size = 2 ^ 64 - 4` and one counter `msg_refcnt` is `buf` itself,
not `buf + sizeof (counter) + max_size`. -/
theorem msg_refcnt_wrap_counterexample :
    Reach env64 any_op (mk2 18446744073709551596 5, Heap.empty)
      (⟨16, 18446744073709551596, 18446744073709551596, 0, 5⟩,
        ⟨[(16, ⟨4, some ⟨1⟩⟩)], [HeapEvent.malloc 16 4]⟩) ∧
    ¬ ((shared_message_memory_allocator.mk 16 18446744073709551596
          18446744073709551596 0 5).msg_refcnt = 0 ↔
        (shared_message_memory_allocator.mk 16 18446744073709551596
          18446744073709551596 0 5).buf = 0) ∧
    Reach env64 any_op (mk2 18446744073709551612 1, Heap.empty)
      (⟨16, 18446744073709551612, 18446744073709551612, 16, 1⟩,
        ⟨[(16, ⟨4, some ⟨1⟩⟩)], [HeapEvent.malloc 16 4]⟩) ∧
    (shared_message_memory_allocator.mk 16 18446744073709551612
        18446744073709551612 16 1).msg_refcnt
      ≠ 16 + env64.sizeof_counter + 18446744073709551612 := by
  refine ⟨reach_of_run env64 [Op.allocate] _ _ _ Reach.init (by decide), by decide,
    reach_of_run env64 [Op.allocate] _ _ _ Reach.init (by decide), by decide⟩

/-- Claim C13, amended (single valid allocation): in every state reached from a
freshly constructed allocator by any sequence of `allocate`, `inc_ref`,
`release`, `deallocate` and the callback on the base pointer of any live
allocation, where the callback is not run on the current buffer of the
allocator while the counter of that buffer is 1, `buf` is null or the address
of a live block that carries a counter (of a value below `2 ^ 32`) and has not
been freed. -/
theorem buf_null_or_live (E : Env) (ms mc : Nat) (h0 : Heap) (s : State)
    (hr : Reach E keeps_own_hold (mk2 ms mc, h0) s) :
    s.1.buf = 0 ∨
    (s.2.live s.1.buf = true ∧ ∃ c, s.2.count s.1.buf = some c ∧ c < INTEGER_MOD) := by
  have key : s.1.buf = 0 ∨
      ∃ n c, s.2.find s.1.buf = some ⟨n, some ⟨c⟩⟩ ∧ c < INTEGER_MOD := by
    induction hr with
    | init => exact Or.inl rfl
    | @next s s1 op _ hallowed hstep ih =>
      obtain ⟨a, h⟩ := s
      obtain ⟨a1, h1⟩ := s1
      simp only at ih
      cases op with
      | allocate =>
        obtain ⟨r, hok⟩ := step_allocate_ok hstep
        obtain ⟨_, _, _, n, g4⟩ := allocate_post hok
        exact Or.inr ⟨n, 1, g4, by decide⟩
      | inc_ref =>
        obtain ⟨e, hok⟩ := step_inc_ref_ok hstep
        subst e
        obtain ⟨n, c, _, hf, hh⟩ := inc_ref_cases hok
        right
        refine ⟨n, (c.value + 1) % INTEGER_MOD, ?_, Nat.mod_lt _ (by decide)⟩
        subst hh
        show (Heap.mk _ _).find a1.buf = _
        rw [Heap.find_store_same, hf]; rfl
      | release =>
        obtain ⟨e, _⟩ := step_release_ok hstep
        subst e
        exact Or.inl rfl
      | deallocate =>
        obtain ⟨e, _⟩ := deallocate_cases (step_deallocate_ok hstep)
        subst e
        exact Or.inl rfl
      | call_dec_ref hint =>
        obtain ⟨e, hok⟩ := step_call_dec_ref_ok hstep
        subst e
        rcases ih with hz | ⟨n, c, hf, hc⟩
        · exact Or.inl hz
        · right
          obtain ⟨_, n', c', hf', hcase⟩ := call_dec_ref_cases hok
          by_cases hhint : hint = a1.buf
          · subst hhint
            rw [hf] at hf'
            simp only [Option.some.injEq, Block.mk.injEq] at hf'
            obtain ⟨e1, e2⟩ := hf'
            subst e1 e2
            have hne : c ≠ 1 := by
              intro e
              exact hallowed a1.buf rfl rfl (by rw [count_of_find hf, e])
            have hv : (c + (INTEGER_MOD - 1 % INTEGER_MOD)) % INTEGER_MOD ≠ 0 := by
              simp only [INTEGER_MOD] at hc ⊢
              omega
            have hsub : ((atomic_counter_t.mk c).sub 1).1 = true := by
              simp [atomic_counter_t.sub, hv]
            rcases hcase with ⟨_, hh⟩ | ⟨hfalse, _⟩
            · refine ⟨n, ((atomic_counter_t.mk c).sub 1).2.value, ?_, ?_⟩
              · subst hh
                show (Heap.mk _ _).find a1.buf = _
                rw [Heap.find_store_same, hf]; rfl
              · exact Nat.mod_lt _ (by decide)
            · rw [hsub] at hfalse; cases hfalse
          · have hne : a1.buf ≠ hint := fun e => hhint e.symm
            refine ⟨n, c, ?_, hc⟩
            rcases hcase with ⟨_, hh⟩ | ⟨_, hh⟩
            · subst hh
              show (Heap.mk _ _).find a1.buf = _
              rw [Heap.find_store_other _ _ _ _ _ hne]; exact hf
            · subst hh
              show lookup a1.buf (erase hint h.blocks) = _
              rw [lookup_erase_other _ _ _ hne]; exact hf
  rcases key with hz | ⟨n, c, hf, hc⟩
  · exact Or.inl hz
  · exact Or.inr ⟨by simp [Heap.live, hf], c, count_of_find hf, hc⟩

/-- Witness for C13: `allocate`, `inc_ref`, then the callback on the current
buffer, whose counter is 2 at that moment: the buffer stays live. -/
theorem buf_null_or_live_witness :
    Reach env64 keeps_own_hold (mk2 256 8, Heap.empty)
      (⟨16, 256, 256, 276, 8⟩, ⟨[(16, ⟨292, some ⟨1⟩⟩)], [HeapEvent.malloc 16 292]⟩) ∧
    ((16 : Nat) = 0 ∨
      ((Heap.mk [(16, ⟨292, some ⟨1⟩⟩)] [HeapEvent.malloc 16 292]).live 16 = true ∧
        ∃ c, (Heap.mk [(16, ⟨292, some ⟨1⟩⟩)] [HeapEvent.malloc 16 292]).count 16 = some c ∧
          c < INTEGER_MOD)) := by
  have r1 : Reach env64 keeps_own_hold (mk2 256 8, Heap.empty)
      (⟨16, 256, 256, 276, 8⟩, ⟨[(16, ⟨292, some ⟨1⟩⟩)], [HeapEvent.malloc 16 292]⟩) :=
    @Reach.next _ _ _ _ _ Op.allocate Reach.init (fun _ e => by cases e) (by decide)
  have r2 : Reach env64 keeps_own_hold (mk2 256 8, Heap.empty)
      (⟨16, 256, 256, 276, 8⟩, ⟨[(16, ⟨292, some ⟨2⟩⟩)], [HeapEvent.malloc 16 292]⟩) :=
    @Reach.next _ _ _ _ _ Op.inc_ref r1 (fun _ e => by cases e) (by decide)
  have r3 : Reach env64 keeps_own_hold (mk2 256 8, Heap.empty)
      (⟨16, 256, 256, 276, 8⟩, ⟨[(16, ⟨292, some ⟨1⟩⟩)], [HeapEvent.malloc 16 292]⟩) :=
    @Reach.next _ _ _ _ _ (Op.call_dec_ref 16) r2
      (fun hint e _ => by cases e; decide) (by decide)
  exact ⟨r3, buf_null_or_live env64 256 8 Heap.empty _ r3⟩

/-- Counterexample to C13 as stated: after `allocate` the callback is run on
the base pointer 16 of the current buffer, which is live with counter 1 (a
message relying on the hold taken by `allocate`).  The callback frees the
block, `buf` still holds 16, and the next `allocate` decrements a counter in
freed memory. -/
theorem buf_dangling_counterexample :
    step env64 Op.allocate (mk2 256 8, Heap.empty)
      = Except.ok (⟨16, 256, 256, 276, 8⟩,
          ⟨[(16, ⟨292, some ⟨1⟩⟩)], [HeapEvent.malloc 16 292]⟩) ∧
    (Heap.mk [(16, ⟨292, some ⟨1⟩⟩)] [HeapEvent.malloc 16 292]).live 16 = true ∧
    step env64 (Op.call_dec_ref 16)
        (⟨16, 256, 256, 276, 8⟩, ⟨[(16, ⟨292, some ⟨1⟩⟩)], [HeapEvent.malloc 16 292]⟩)
      = Except.ok (⟨16, 256, 256, 276, 8⟩,
          ⟨[], [HeapEvent.free 16, HeapEvent.malloc 16 292]⟩) ∧
    Reach env64 any_op (mk2 256 8, Heap.empty)
      (⟨16, 256, 256, 276, 8⟩, ⟨[], [HeapEvent.free 16, HeapEvent.malloc 16 292]⟩) ∧
    ¬ ((shared_message_memory_allocator.mk 16 256 256 276 8).buf = 0 ∨
        (Heap.mk [] [HeapEvent.free 16, HeapEvent.malloc 16 292]).live 16 = true) ∧
    step env64 Op.allocate
        (⟨16, 256, 256, 276, 8⟩, ⟨[], [HeapEvent.free 16, HeapEvent.malloc 16 292]⟩)
      = Except.error Fault.undefined := by
  refine ⟨by decide, by decide, by decide,
    reach_of_run env64 [Op.allocate, Op.call_dec_ref 16] _ _ _ Reach.init (by decide),
    by decide, by decide⟩

/-! ## Positive counters -/

theorem mem_of_lookup (p : Nat) (b : Block) (l : List (Nat × Block))
    (hl : lookup p l = some b) : (p, b) ∈ l := by
  induction l with
  | nil => simp [lookup] at hl
  | cons x t ih =>
    obtain ⟨a, y⟩ := x
    by_cases hap : a = p
    · simp [lookup, hap] at hl
      simp [hap, hl]
    · simp [lookup, hap] at hl
      exact List.mem_cons_of_mem _ (ih hl)

theorem mem_store (p : Nat) (b : Block) (l : List (Nat × Block)) (x : Nat × Block)
    (hx : x ∈ store p b l) : x ∈ l ∨ x.2 = b := by
  induction l with
  | nil => simp [store] at hx
  | cons y t ih =>
    obtain ⟨a, z⟩ := y
    by_cases hap : a = p
    · simp only [store, hap, if_true, List.mem_cons] at hx
      rcases hx with e | e
      · right; rw [e]
      · left; exact List.mem_cons_of_mem _ e
    · simp only [store, hap, if_false, List.mem_cons] at hx
      rcases hx with e | e
      · left; rw [e]; exact List.mem_cons_self _ _
      · rcases ih e with g | g
        · left; exact List.mem_cons_of_mem _ g
        · right; exact g

theorem mem_erase (p : Nat) (l : List (Nat × Block)) (x : Nat × Block)
    (hx : x ∈ erase p l) : x ∈ l := by
  induction l with
  | nil => simp [erase] at hx
  | cons y t ih =>
    obtain ⟨a, z⟩ := y
    by_cases hap : a = p
    · simp only [erase, hap, if_true] at hx
      exact List.mem_cons_of_mem _ (ih hx)
    · simp only [erase, hap, if_false, List.mem_cons] at hx
      rcases hx with e | e
      · rw [e]; exact List.mem_cons_self _ _
      · exact List.mem_cons_of_mem _ (ih e)

theorem positive_store (h : Heap) (p : Nat) (b : Block) (lg : List HeapEvent)
    (hpos : h.counters_positive) (hb : b.positive = true) :
    (Heap.mk (store p b h.blocks) lg).counters_positive := by
  intro x hx
  rcases mem_store p b h.blocks x hx with g | g
  · exact hpos x g
  · rw [g]; exact hb

theorem positive_erase (h : Heap) (p : Nat) (lg : List HeapEvent)
    (hpos : h.counters_positive) : (Heap.mk (erase p h.blocks) lg).counters_positive :=
  fun x hx => hpos x (mem_erase p h.blocks x hx)

theorem positive_cons (bl : List (Nat × Block)) (p : Nat) (b : Block)
    (lg : List HeapEvent) (hpos : ∀ x ∈ bl, x.2.positive = true) (hb : b.positive = true) :
    (Heap.mk ((p, b) :: bl) lg).counters_positive := by
  intro x hx
  simp only [List.mem_cons] at hx
  rcases hx with e | e
  · rw [e]; exact hb
  · exact hpos x e

theorem positive_one (n : Nat) : (Block.mk n (some ⟨1⟩)).positive = true := by
  simp [Block.positive, INTEGER_MOD]

theorem sub_fst (c : atomic_counter_t) (d : Nat) :
    (c.sub d).1 = ((c.sub d).2.value != 0) := by
  unfold atomic_counter_t.sub
  rfl

theorem sub_snd_lt (c : atomic_counter_t) (d : Nat) :
    (c.sub d).2.value < INTEGER_MOD := by
  unfold atomic_counter_t.sub
  exact Nat.mod_lt _ (by decide)

theorem positive_sub (n : Nat) (c : atomic_counter_t) (hnz : (c.sub 1).1 = true) :
    (Block.mk n (some (c.sub 1).2)).positive = true := by
  rw [sub_fst] at hnz
  have hlt := sub_snd_lt c 1
  generalize (c.sub 1).2 = c' at hnz hlt
  have hne : c'.value ≠ 0 := by simpa using hnz
  simp only [Block.positive, decide_eq_true_eq]
  exact ⟨Nat.pos_of_ne_zero hne, hlt⟩

theorem counter_of_positive {h : Heap} {p : Nat} {b : Block} (hpos : h.counters_positive)
    (hf : h.find p = some b) :
    ∃ c, h.find p = some ⟨b.size, some ⟨c⟩⟩ ∧ 1 ≤ c ∧ c < INTEGER_MOD := by
  have hm := hpos (p, b) (mem_of_lookup p b h.blocks hf)
  obtain ⟨n, oc⟩ := b
  cases oc with
  | none => simp [Block.positive] at hm
  | some c =>
    simp only [Block.positive, decide_eq_true_eq] at hm
    exact ⟨c.value, hf, hm.1, hm.2⟩

theorem live_find {h : Heap} {p : Nat} (hl : h.live p = true) : ∃ b, h.find p = some b := by
  unfold Heap.live at hl
  cases hf : h.find p with
  | none => rw [hf] at hl; cases hl
  | some b => exact ⟨b, rfl⟩

/-- With positive counters every operation whose pointer is as it needs it
returns, `allocate` provided `malloc` does not fail and the size requested has
room for the counter. -/
theorem step_returns (E : Env) (op : Op) (a : shared_message_memory_allocator) (h : Heap)
    (hpos : h.counters_positive) (hptr : pointer_ok op (a, h))
    (hmem : op = Op.allocate → E.malloc_total ∧ E.sizeof_counter ≤ allocationsize E a) :
    ∃ s1, step E op (a, h) = Except.ok s1 := by
  cases op with
  | allocate =>
    obtain ⟨hm, hfit⟩ := hmem rfl
    have hnull : ∀ (a0 : shared_message_memory_allocator) (h0 : Heap), a0.buf = 0 →
        allocationsize E a0 = allocationsize E a →
        ∃ r a1 h1, allocate E a0 h0 = Except.ok (r, a1, h1) := by
      intro a0 h0 hb hsz
      rw [allocate_of_null E a0 h0 hb, hsz]
      simp only [hm _ _, hfit, if_true, if_false]
      exact ⟨_, _, _, rfl⟩
    have hall : ∃ r a1 h1, allocate E a h = Except.ok (r, a1, h1) := by
      by_cases hb : a.buf = 0
      · exact hnull a h hb rfl
      · have hl : h.live a.buf = true := by
          rcases hptr with e | e
          · exact absurd e hb
          · exact e
        obtain ⟨b, hf⟩ := live_find hl
        obtain ⟨c, hf', _, _⟩ := counter_of_positive hpos hf
        cases hz : ((atomic_counter_t.mk c).sub 1).1 with
        | false => exact ⟨_, _, _, allocate_of_zero E a h _ _ hb hf' hz⟩
        | true =>
          rw [allocate_of_shared E a h _ _ hb hf' hz]
          exact hnull _ _ rfl rfl
    obtain ⟨r, a1, h1, hok⟩ := hall
    refine ⟨(a1, h1), ?_⟩
    simp only [step, hok]
  | inc_ref =>
    obtain ⟨hb, hl⟩ := hptr
    obtain ⟨b, hf⟩ := live_find hl
    obtain ⟨c, hf', _, _⟩ := counter_of_positive hpos hf
    simp only [step, inc_ref_of_find a h _ _ hb hf']
    exact ⟨_, rfl⟩
  | release => exact ⟨_, rfl⟩
  | deallocate =>
    by_cases hb : a.buf = 0
    · exact ⟨_, deallocate_of_null a h hb⟩
    · have hl : h.live a.buf = true := by
        rcases hptr with e | e
        · exact absurd e hb
        · exact e
      obtain ⟨b, hf⟩ := live_find hl
      exact ⟨_, deallocate_of_live a h b hb hf⟩
  | call_dec_ref hint =>
    obtain ⟨hb, hl⟩ := hptr
    obtain ⟨b, hf⟩ := live_find hl
    obtain ⟨c, hf', _, _⟩ := counter_of_positive hpos hf
    cases hz : ((atomic_counter_t.mk c).sub 1).1 with
    | false =>
      simp only [step, call_dec_ref_of_last h hint _ _ hb hf' hz]
      exact ⟨_, rfl⟩
    | true =>
      simp only [step, call_dec_ref_of_shared h hint _ _ hb hf' hz]
      exact ⟨_, rfl⟩

/-- Claim C16, amended (live counters stay positive): let every live block
have a counter between 1 and `2 ^ 32 - 1`.  Then no live counter is 0; every
operation that returns, `inc_ref` not being applied to a counter equal to
`2 ^ 32 - 1`, leaves every block that is still live with such a counter; the
counter that a returning callback or `allocate` decremented was at least 1;
and the operation does return when the pointer it dereferences or frees is
null or live as it requires (for `allocate`, when `malloc` does not fail and
the size requested has room for the counter). -/
theorem counters_stay_positive (E : Env) (op : Op) (a : shared_message_memory_allocator)
    (h : Heap) (hpos : h.counters_positive) :
    (∀ p, h.live p = true → ∃ c, h.count p = some c ∧ 1 ≤ c) ∧
    (∀ a' h', (op = Op.inc_ref → h.count a.buf ≠ some (INTEGER_MOD - 1)) →
      step E op (a, h) = Except.ok (a', h') →
      h'.counters_positive ∧ ∀ p, h'.live p = true → ∃ c, h'.count p = some c ∧ 1 ≤ c) ∧
    (∀ a' h' hint, op = Op.call_dec_ref hint → step E op (a, h) = Except.ok (a', h') →
      ∃ c, h.count hint = some c ∧ 1 ≤ c) ∧
    (∀ a' h', op = Op.allocate → a.buf ≠ 0 → step E op (a, h) = Except.ok (a', h') →
      ∃ c, h.count a.buf = some c ∧ 1 ≤ c) ∧
    (pointer_ok op (a, h) →
      (op = Op.allocate → E.malloc_total ∧ E.sizeof_counter ≤ allocationsize E a) →
      ∃ s1, step E op (a, h) = Except.ok s1) := by
  have hlive : ∀ (h : Heap), h.counters_positive →
      ∀ p, h.live p = true → ∃ c, h.count p = some c ∧ 1 ≤ c := by
    intro h hpos p hl
    obtain ⟨b, hf⟩ := live_find hl
    obtain ⟨c, hf', hc, _⟩ := counter_of_positive hpos hf
    exact ⟨c, count_of_find hf', hc⟩
  have hfind : ∀ p n (c : atomic_counter_t), h.find p = some ⟨n, some c⟩ →
      ∃ v, h.count p = some v ∧ 1 ≤ v := by
    intro p n c hf
    exact hlive h hpos p (by simp [Heap.live, hf])
  refine ⟨hlive h hpos, ?_, ?_, ?_, step_returns E op a h hpos⟩
  · intro a' h' hmax hstep
    suffices hp : h'.counters_positive from ⟨hp, hlive h' hp⟩
    cases op with
    | allocate =>
      obtain ⟨r, hok⟩ := step_allocate_ok hstep
      rcases allocate_cases hok with ⟨_, hb⟩ | ⟨n, c, _, _, _, _, hb⟩ | ⟨n, c, _, _, hnz, hb⟩
      · intro x hx
        rw [hb] at hx
        exact positive_cons h.blocks _ _ [] hpos (positive_one _) x hx
      · intro x hx
        rw [hb] at hx
        exact positive_store h _ _ [] hpos (positive_one _) x hx
      · intro x hx
        rw [hb] at hx
        exact positive_cons _ _ _ []
          (positive_store h _ _ [] hpos (positive_sub n c hnz)) (positive_one _) x hx
    | inc_ref =>
      obtain ⟨_, hok⟩ := step_inc_ref_ok hstep
      obtain ⟨n, c, _, hf, hh⟩ := inc_ref_cases hok
      subst hh
      obtain ⟨v, hf', hv1, hv2⟩ := counter_of_positive hpos hf
      rw [hf] at hf'
      simp only [Option.some.injEq, Block.mk.injEq, true_and] at hf'
      subst hf'
      have hne : v ≠ INTEGER_MOD - 1 := by
        intro e
        exact hmax rfl (by rw [count_of_find hf, e])
      apply positive_store h _ _ _ hpos
      simp only [Block.positive, decide_eq_true_eq]
      simp only [INTEGER_MOD] at hv2 hne ⊢
      omega
    | release =>
      obtain ⟨_, e⟩ := step_release_ok hstep
      rw [e]; exact hpos
    | deallocate =>
      obtain ⟨_, hcase⟩ := deallocate_cases (step_deallocate_ok hstep)
      rcases hcase with ⟨_, e⟩ | ⟨_, b, _, e⟩
      · rw [e]; exact hpos
      · rw [e]; exact positive_erase h _ _ hpos
    | call_dec_ref hint =>
      obtain ⟨_, hok⟩ := step_call_dec_ref_ok hstep
      obtain ⟨_, n, c, _, hcase⟩ := call_dec_ref_cases hok
      rcases hcase with ⟨hnz, e⟩ | ⟨_, e⟩
      · rw [e]; exact positive_store h _ _ _ hpos (positive_sub n c hnz)
      · rw [e]; exact positive_erase h _ _ hpos
  · intro a' h' hint hop hstep
    subst hop
    obtain ⟨_, hok⟩ := step_call_dec_ref_ok hstep
    obtain ⟨_, n, c, hf, _⟩ := call_dec_ref_cases hok
    exact hfind hint n c hf
  · intro a' h' hop hb hstep
    subst hop
    obtain ⟨r, hok⟩ := step_allocate_ok hstep
    rcases allocate_cases hok with ⟨e, _⟩ | ⟨n, c, _, hf, _⟩ | ⟨n, c, _, hf, _⟩
    · exact absurd e hb
    · exact hfind a.buf n c hf
    · exact hfind a.buf n c hf

/-- Witness for C16: the callback on a detached block with counter 2 next to
the current buffer. -/
theorem counters_stay_positive_witness :
    (Heap.mk [(324, ⟨292, some ⟨1⟩⟩), (16, ⟨292, some ⟨2⟩⟩)]
        [HeapEvent.malloc 324 292, HeapEvent.malloc 16 292]).counters_positive ∧
    pointer_ok (Op.call_dec_ref 16)
      (⟨324, 256, 256, 584, 8⟩,
        ⟨[(324, ⟨292, some ⟨1⟩⟩), (16, ⟨292, some ⟨2⟩⟩)],
         [HeapEvent.malloc 324 292, HeapEvent.malloc 16 292]⟩) ∧
    step env64 (Op.call_dec_ref 16)
      (⟨324, 256, 256, 584, 8⟩,
        ⟨[(324, ⟨292, some ⟨1⟩⟩), (16, ⟨292, some ⟨2⟩⟩)],
         [HeapEvent.malloc 324 292, HeapEvent.malloc 16 292]⟩)
      = Except.ok (⟨324, 256, 256, 584, 8⟩,
        ⟨[(324, ⟨292, some ⟨1⟩⟩), (16, ⟨292, some ⟨1⟩⟩)],
         [HeapEvent.malloc 324 292, HeapEvent.malloc 16 292]⟩) ∧
    (Heap.mk [(324, ⟨292, some ⟨1⟩⟩), (16, ⟨292, some ⟨1⟩⟩)]
        [HeapEvent.malloc 324 292, HeapEvent.malloc 16 292]).counters_positive := by
  have hpos : (Heap.mk [(324, ⟨292, some ⟨1⟩⟩), (16, ⟨292, some ⟨2⟩⟩)]
      [HeapEvent.malloc 324 292, HeapEvent.malloc 16 292]).counters_positive := by
    unfold Heap.counters_positive; decide
  refine ⟨hpos, ⟨by decide, by decide⟩, by decide, ?_⟩
  exact ((counters_stay_positive env64 (Op.call_dec_ref 16) ⟨324, 256, 256, 584, 8⟩ _
    hpos).2.1 ⟨324, 256, 256, 584, 8⟩ _ (fun e => by cases e) (by decide)).1

/-- Counterexample to C16 as stated: the current buffer is live with counter
`2 ^ 32 - 1`, every live counter is at least 1 and `buf` is live; `inc_ref`
returns and leaves the block live with counter 0. -/
theorem counters_wrap_counterexample :
    (Heap.mk [(16, ⟨292, some ⟨4294967295⟩⟩)] [HeapEvent.malloc 16 292]).counters_positive ∧
    pointer_ok Op.inc_ref
      (⟨16, 256, 256, 276, 8⟩,
        ⟨[(16, ⟨292, some ⟨4294967295⟩⟩)], [HeapEvent.malloc 16 292]⟩) ∧
    step env64 Op.inc_ref
      (⟨16, 256, 256, 276, 8⟩,
        ⟨[(16, ⟨292, some ⟨4294967295⟩⟩)], [HeapEvent.malloc 16 292]⟩)
      = Except.ok (⟨16, 256, 256, 276, 8⟩,
        ⟨[(16, ⟨292, some ⟨0⟩⟩)], [HeapEvent.malloc 16 292]⟩) ∧
    (Heap.mk [(16, ⟨292, some ⟨0⟩⟩)] [HeapEvent.malloc 16 292]).live 16 = true ∧
    (Heap.mk [(16, ⟨292, some ⟨0⟩⟩)] [HeapEvent.malloc 16 292]).count 16 = some 0 ∧
    ¬ (Heap.mk [(16, ⟨292, some ⟨0⟩⟩)] [HeapEvent.malloc 16 292]).counters_positive := by
  refine ⟨?_, ⟨by decide, by decide⟩, by decide, by decide, by decide, ?_⟩
  · unfold Heap.counters_positive; decide
  · unfold Heap.counters_positive; decide

/-! ## Concurrent callbacks: the invariant -/

theorem count_set_pc (ts : List dec_ref_pc) (i : Nat) (hi : i < ts.length)
    (pc1 x : dec_ref_pc) :
    (ts.set i pc1).count x
      = ts.count x - (if ts[i] = x then 1 else 0) + (if pc1 = x then 1 else 0) := by
  rw [List.count_set pc1 x ts i hi]
  simp only [beq_iff_eq]

theorem count_getElem_pos (ts : List dec_ref_pc) (i : Nat) (hi : i < ts.length) :
    1 ≤ ts.count ts[i] :=
  List.count_pos_iff.2 (List.getElem_mem hi)

/-- One access by one invocation keeps the invariant, and does not fault. -/
theorem dec_ref_step_inv (p sz : Nat) (h0 : Heap) (hp : p ≠ 0) (ts : List dec_ref_pc)
    (h : Heap) (i : Nat) (hi : i < ts.length) (hinv : dec_ref_inv p sz h0 ts h) :
    ∃ pc1 h1, dec_ref_step p ts[i] h = Except.ok (pc1, h1) ∧
      dec_ref_inv p sz h0 (ts.set i pc1) h1 := by
  have hmem := count_getElem_pos ts i hi
  have cs := count_set_pc ts i hi
  obtain ⟨hoth, hph⟩ := hinv
  generalize hpc : ts[i] = pc at hmem cs
  cases pc with
  | start =>
    rcases hph with ⟨z, d, f, s1, s2, hf, hl⟩ | ⟨s, _⟩ | ⟨s, _⟩ | ⟨s, _⟩
    · have hsub := sub_one_of_pos _ s1 s2
      have hstep : dec_ref_step p dec_ref_pc.start h = Except.ok
          (if decide (ts.count dec_ref_pc.start ≠ 1) then dec_ref_pc.returned false
            else dec_ref_pc.zero_seen,
           ⟨store p ⟨sz, some ⟨ts.count dec_ref_pc.start - 1⟩⟩ h.blocks, h.log⟩) := by
        simp only [dec_ref_step, hp, if_false, Heap.sub_of_find 1 hp hf, hsub]
      have hf1 : (Heap.mk (store p ⟨sz, some ⟨ts.count dec_ref_pc.start - 1⟩⟩ h.blocks)
          h.log).find p = some ⟨sz, some ⟨ts.count dec_ref_pc.start - 1⟩⟩ := by
        rw [Heap.find_store_same, hf]; rfl
      have hoth1 : ∀ q, q ≠ p →
          (Heap.mk (store p ⟨sz, some ⟨ts.count dec_ref_pc.start - 1⟩⟩ h.blocks)
            h.log).find q = h0.find q := by
        intro q hq
        rw [Heap.find_store_other _ _ _ _ _ hq]; exact hoth q hq
      refine ⟨_, _, hstep, hoth1, ?_⟩
      by_cases h1 : ts.count dec_ref_pc.start = 1
      · right; left
        have c1 := cs dec_ref_pc.zero_seen dec_ref_pc.start
        have c2 := cs dec_ref_pc.zero_seen dec_ref_pc.zero_seen
        have c3 := cs dec_ref_pc.zero_seen dec_ref_pc.destroyed
        have c4 := cs dec_ref_pc.zero_seen (dec_ref_pc.returned true)
        simp only [h1, ne_eq, not_true_eq_false, decide_False, Bool.false_eq_true,
          if_false] at hf1 ⊢
        simp at c1 c2 c3 c4
        refine ⟨by omega, by omega, by omega, by omega, hf1, hl⟩
      · left
        have c1 := cs (dec_ref_pc.returned false) dec_ref_pc.start
        have c2 := cs (dec_ref_pc.returned false) dec_ref_pc.zero_seen
        have c3 := cs (dec_ref_pc.returned false) dec_ref_pc.destroyed
        have c4 := cs (dec_ref_pc.returned false) (dec_ref_pc.returned true)
        simp only [h1, ne_eq, not_false_eq_true, decide_True, if_true]
        simp at c1 c2 c3 c4
        refine ⟨by omega, by omega, by omega, by omega, by omega, ?_, hl⟩
        rw [c1]; exact hf1
    · omega
    · omega
    · omega
  | zero_seen =>
    rcases hph with ⟨z, _⟩ | ⟨s, z, d, f, hf, hl⟩ | ⟨_, z, _⟩ | ⟨_, z, _⟩
    · omega
    · have hstep : dec_ref_step p dec_ref_pc.zero_seen h = Except.ok
          (dec_ref_pc.destroyed, ⟨store p ⟨sz, none⟩ h.blocks, h.log⟩) := by
        simp only [dec_ref_step, Heap.destroy, hp, if_false, hf]
      refine ⟨_, _, hstep, ?_, ?_⟩
      · intro q hq
        rw [Heap.find_store_other _ _ _ _ _ hq]; exact hoth q hq
      · right; right; left
        have c1 := cs dec_ref_pc.destroyed dec_ref_pc.start
        have c2 := cs dec_ref_pc.destroyed dec_ref_pc.zero_seen
        have c3 := cs dec_ref_pc.destroyed dec_ref_pc.destroyed
        have c4 := cs dec_ref_pc.destroyed (dec_ref_pc.returned true)
        simp at c1 c2 c3 c4
        refine ⟨by omega, by omega, by omega, by omega, ?_, hl⟩
        rw [Heap.find_store_same, hf]; rfl
    · omega
    · omega
  | destroyed =>
    rcases hph with ⟨_, d, _⟩ | ⟨_, _, d, _⟩ | ⟨s, z, d, f, hf, hl⟩ | ⟨_, _, d, _⟩
    · omega
    · omega
    · have hstep : dec_ref_step p dec_ref_pc.destroyed h = Except.ok
          (dec_ref_pc.returned true, ⟨erase p h.blocks, HeapEvent.free p :: h.log⟩) := by
        simp only [dec_ref_step, Heap.free, hp, if_false, hf]
      refine ⟨_, _, hstep, ?_, ?_⟩
      · intro q hq
        show lookup q (erase p h.blocks) = _
        rw [lookup_erase_other _ _ _ hq]; exact hoth q hq
      · right; right; right
        have c1 := cs (dec_ref_pc.returned true) dec_ref_pc.start
        have c2 := cs (dec_ref_pc.returned true) dec_ref_pc.zero_seen
        have c3 := cs (dec_ref_pc.returned true) dec_ref_pc.destroyed
        have c4 := cs (dec_ref_pc.returned true) (dec_ref_pc.returned true)
        simp at c1 c2 c3 c4
        refine ⟨by omega, by omega, by omega, by omega, ?_, by rw [← hl]⟩
        show lookup p (erase p h.blocks) = none
        exact lookup_erase_same _ _
    · omega
  | returned f =>
    have hstep : dec_ref_step p (dec_ref_pc.returned f) h
        = Except.ok (dec_ref_pc.returned f, h) := rfl
    refine ⟨_, _, hstep, hoth, ?_⟩
    have c1 := cs (dec_ref_pc.returned f) dec_ref_pc.start
    have c2 := cs (dec_ref_pc.returned f) dec_ref_pc.zero_seen
    have c3 := cs (dec_ref_pc.returned f) dec_ref_pc.destroyed
    have c4 := cs (dec_ref_pc.returned f) (dec_ref_pc.returned true)
    simp at c1 c2 c3 c4
    have c4' : List.count (dec_ref_pc.returned true) (ts.set i (dec_ref_pc.returned f))
        = List.count (dec_ref_pc.returned true) ts := by
      cases f with
      | false => simpa using c4
      | true =>
        simp only [if_true] at c4
        omega
    rw [c1, c2, c3, c4']
    exact hph

/-! ## Concurrent callbacks: progress -/

theorem dec_ref_step_progress (p : Nat) (pc pc1 : dec_ref_pc) (h h1 : Heap)
    (hs : dec_ref_step p pc h = Except.ok (pc1, h1)) :
    steps_left pc1 ≤ steps_left pc - 1 := by
  cases pc with
  | start =>
    simp only [dec_ref_step] at hs
    split at hs
    · cases hs
    · split at hs
      · rename_i b h2 _
        simp only [Except.ok.injEq, Prod.mk.injEq] at hs
        rw [← hs.1]
        cases b <;> simp [steps_left]
      · cases hs
  | zero_seen =>
    simp only [dec_ref_step] at hs
    split at hs
    · simp only [Except.ok.injEq, Prod.mk.injEq] at hs
      rw [← hs.1]; simp [steps_left]
    · cases hs
  | destroyed =>
    simp only [dec_ref_step] at hs
    split at hs
    · simp only [Except.ok.injEq, Prod.mk.injEq] at hs
      rw [← hs.1]; simp [steps_left]
    · cases hs
  | returned f =>
    simp only [dec_ref_step, Except.ok.injEq, Prod.mk.injEq] at hs
    rw [← hs.1]; simp [steps_left]

/-- Each turn that a schedule gives to a thread brings its invocation one
access closer to its return. -/
theorem interleave_progress (p : Nat) :
    ∀ (sched : List Nat) (ts ts1 : List dec_ref_pc) (h h1 : Heap),
      interleave p sched (ts, h) = Except.ok (ts1, h1) →
      ∀ j, left_at ts1 j ≤ left_at ts j - sched.count j := by
  intro sched
  induction sched with
  | nil =>
    intro ts ts1 h h1 hrun j
    simp only [interleave, Except.ok.injEq, Prod.mk.injEq] at hrun
    rw [← hrun.1]; simp
  | cons i sched ih =>
    intro ts ts1 h h1 hrun j
    have hcount : (i :: sched).count j = sched.count j + (if i = j then 1 else 0) := by
      rw [List.count_cons]; simp only [beq_iff_eq]
    cases hget : ts[i]? with
    | none =>
      simp only [interleave, hget] at hrun
      have := ih ts ts1 h h1 hrun j
      by_cases hij : i = j
      · subst hij
        have hz : left_at ts i = 0 := by simp [left_at, hget]
        omega
      · simp only [hij, if_false] at hcount
        omega
    | some pc =>
      simp only [interleave, hget] at hrun
      cases hstep : dec_ref_step p pc h with
      | error e => rw [hstep] at hrun; cases hrun
      | ok r =>
        obtain ⟨pc1, h2⟩ := r
        rw [hstep] at hrun
        simp only at hrun
        have := ih (ts.set i pc1) ts1 h2 h1 hrun j
        have hprog := dec_ref_step_progress p pc pc1 h h2 hstep
        obtain ⟨hi, _⟩ := List.getElem?_eq_some.1 hget
        by_cases hij : i = j
        · subst hij
          have e1 : left_at (ts.set i pc1) i = steps_left pc1 := by
            simp [left_at, List.getElem?_set_self hi]
          have e2 : left_at ts i = steps_left pc := by simp [left_at, hget]
          simp only [if_true] at hcount
          omega
        · have e1 : left_at (ts.set i pc1) j = left_at ts j := by
            simp [left_at, List.getElem?_set_ne hij]
          simp only [hij, if_false] at hcount
          omega

/-- When no thread has an access left, every invocation has returned. -/
theorem all_returned_of_left (ts : List dec_ref_pc) (hall : ∀ j, left_at ts j = 0) :
    ts.count dec_ref_pc.start = 0 ∧ ts.count dec_ref_pc.zero_seen = 0 ∧
    ts.count dec_ref_pc.destroyed = 0 := by
  have key : ∀ pc, 0 < steps_left pc → pc ∉ ts := by
    intro pc hpos hmem
    obtain ⟨j, hj⟩ := List.mem_iff_getElem?.1 hmem
    have := hall j
    simp only [left_at, hj] at this
    omega
  exact ⟨List.count_eq_zero.2 (key _ (by decide)), List.count_eq_zero.2 (key _ (by decide)),
    List.count_eq_zero.2 (key _ (by decide))⟩

/-- Every schedule keeps the invariant, and no access faults. -/
theorem interleave_inv (p sz : Nat) (h0 : Heap) (hp : p ≠ 0) :
    ∀ (sched : List Nat) (ts : List dec_ref_pc) (h : Heap), dec_ref_inv p sz h0 ts h →
      ∃ ts1 h1, interleave p sched (ts, h) = Except.ok (ts1, h1) ∧
        ts1.length = ts.length ∧ dec_ref_inv p sz h0 ts1 h1 := by
  intro sched
  induction sched with
  | nil =>
    intro ts h hinv
    exact ⟨ts, h, rfl, rfl, hinv⟩
  | cons i sched ih =>
    intro ts h hinv
    cases hget : ts[i]? with
    | none =>
      simp only [interleave, hget]
      exact ih ts h hinv
    | some pc =>
      obtain ⟨hi, hpc⟩ := List.getElem?_eq_some.1 hget
      obtain ⟨pc1, h1, hstep, hinv1⟩ := dec_ref_step_inv p sz h0 hp ts h i hi hinv
      rw [hpc] at hstep
      obtain ⟨ts2, h2, hrun, hlen, hinv2⟩ := ih (ts.set i pc1) h1 hinv1
      refine ⟨ts2, h2, ?_, ?_, hinv2⟩
      · simp only [interleave, hget, hstep]
        exact hrun
      · rw [hlen, List.length_set]

/-- One invocation stepped alone three times does what `call_dec_ref` does. -/
theorem interleave_alone (hint : Nat) (h : Heap) :
    (match interleave hint [0, 0, 0] ([dec_ref_pc.start], h) with
      | Except.ok (_, h1) => Except.ok h1
      | Except.error e => Except.error e) = call_dec_ref hint h := by
  by_cases hp : hint = 0
  · subst hp
    simp [interleave, dec_ref_step, call_dec_ref, bind, Except.bind, throw, throwThe,
      MonadExceptOf.throw]
  · cases hc : h.counter hint with
    | error e =>
      rw [call_dec_ref_of_fault h hint e hp hc]
      simp [interleave, dec_ref_step, hp, Heap.sub, hc]
    | ok nc =>
      obtain ⟨n, c⟩ := nc
      obtain ⟨_, hf⟩ := Heap.find_of_counter hc
      have hl : lookup hint h.blocks = some ⟨n, some c⟩ := hf
      cases hz : (c.sub 1).1 with
      | false =>
        rw [call_dec_ref_of_last h hint n c hp hf hz]
        simp [interleave, dec_ref_step, hp, Heap.sub_of_find 1 hp hf, hz, Heap.destroy,
          Heap.free, Heap.find, lookup_store_same, hl, erase_store]
      | true =>
        rw [call_dec_ref_of_shared h hint n c hp hf hz]
        simp [interleave, dec_ref_step, hp, Heap.sub_of_find 1 hp hf, hz]

/-- Claim C12 (concurrent release): `n` threads, `1 ≤ n < 2 ^ 32`, run the
callback on the same live block `p` whose counter is `n`.  Whatever the
schedule, no access faults; at most one invocation sees the counter reach
zero, none while some invocation has not decremented yet, and exactly one
once all of them have; the block is freed at most once, by an invocation that
saw zero, and exactly then the log has one more `free`; when all invocations
have returned, as they have under every schedule that gives each thread at
least three turns, the block is freed and exactly one of them called `free`;
other blocks are not touched. -/
theorem concurrent_dec_ref_frees_once (p sz n : Nat) (h0 : Heap) (sched : List Nat)
    (hp : p ≠ 0) (hn1 : 1 ≤ n) (hn2 : n < INTEGER_MOD)
    (hf : h0.find p = some ⟨sz, some ⟨n⟩⟩) :
    ∃ ts h, interleave p sched (List.replicate n dec_ref_pc.start, h0) = Except.ok (ts, h) ∧
      ts.length = n ∧
      observers ts ≤ 1 ∧
      (observers ts = 1 ↔ ts.count dec_ref_pc.start = 0) ∧
      ts.count (dec_ref_pc.returned true) ≤ observers ts ∧
      (ts.count (dec_ref_pc.returned true) = 0 → h.log = h0.log ∧ h.live p = true) ∧
      (ts.count (dec_ref_pc.returned true) = 1 →
        h.log = HeapEvent.free p :: h0.log ∧ h.live p = false) ∧
      (ts.count dec_ref_pc.start = 0 → ts.count dec_ref_pc.zero_seen = 0 →
        ts.count dec_ref_pc.destroyed = 0 →
        ts.count (dec_ref_pc.returned true) = 1 ∧ h.live p = false ∧
        h.log = HeapEvent.free p :: h0.log) ∧
      ((∀ j, j < n → 3 ≤ sched.count j) →
        ts.count dec_ref_pc.start = 0 ∧ ts.count dec_ref_pc.zero_seen = 0 ∧
        ts.count dec_ref_pc.destroyed = 0 ∧
        ts.count (dec_ref_pc.returned true) = 1 ∧ h.live p = false ∧
        h.log = HeapEvent.free p :: h0.log) ∧
      (∀ q, q ≠ p → h.find q = h0.find q) := by
  have c1 : (List.replicate n dec_ref_pc.start).count dec_ref_pc.start = n :=
    List.count_replicate_self _ _
  have c2 : (List.replicate n dec_ref_pc.start).count dec_ref_pc.zero_seen = 0 := by
    simp [List.count_replicate]
  have c3 : (List.replicate n dec_ref_pc.start).count dec_ref_pc.destroyed = 0 := by
    simp [List.count_replicate]
  have c4 : (List.replicate n dec_ref_pc.start).count (dec_ref_pc.returned true) = 0 := by
    simp [List.count_replicate]
  have hinit : dec_ref_inv p sz h0 (List.replicate n dec_ref_pc.start) h0 :=
    ⟨fun _ _ => rfl, Or.inl ⟨c2, c3, c4, by omega, by omega, by rw [c1]; exact hf, rfl⟩⟩
  obtain ⟨ts, h, hrun, hlen, hoth, hph⟩ := interleave_inv p sz h0 hp sched _ h0 hinit
  have hfair : (∀ j, j < n → 3 ≤ sched.count j) →
      ts.count dec_ref_pc.start = 0 ∧ ts.count dec_ref_pc.zero_seen = 0 ∧
      ts.count dec_ref_pc.destroyed = 0 := by
    intro hthree
    apply all_returned_of_left
    intro j
    have hprog := interleave_progress p sched _ ts h0 h hrun j
    rcases Nat.lt_or_ge j n with hj | hj
    · have h3 : left_at (List.replicate n dec_ref_pc.start) j = 3 := by
        simp [left_at, List.getElem?_replicate, hj, steps_left]
      have := hthree j hj
      omega
    · have h0' : left_at (List.replicate n dec_ref_pc.start) j = 0 := by
        have : ¬ j < n := by omega
        simp [left_at, List.getElem?_replicate, this]
      omega
  refine ⟨ts, h, hrun, by rw [hlen, List.length_replicate], ?_⟩
  unfold observers
  rcases hph with ⟨z, d, f, s1, _, hfind, hl⟩ | ⟨s, z, d, f, hfind, hl⟩ |
    ⟨s, z, d, f, hfind, hl⟩ | ⟨s, z, d, f, hfind, hl⟩
  · refine ⟨by omega, by omega, by omega, fun _ => ⟨hl, ?_⟩, fun e => by omega,
      fun e => by omega, fun hthree => ?_, hoth⟩
    · simp [Heap.live, hfind]
    · have := hfair hthree
      omega
  · refine ⟨by omega, by omega, by omega, fun _ => ⟨hl, ?_⟩, fun e => by omega,
      fun _ e => by omega, fun hthree => ?_, hoth⟩
    · simp [Heap.live, hfind]
    · have := hfair hthree
      omega
  · refine ⟨by omega, by omega, by omega, fun _ => ⟨hl, ?_⟩, fun e => by omega,
      fun _ _ e => by omega, fun hthree => ?_, hoth⟩
    · simp [Heap.live, hfind]
    · have := hfair hthree
      omega
  · have hlive : h.live p = false := by simp [Heap.live, hfind]
    exact ⟨by omega, by omega, by omega, fun e => by omega, fun _ => ⟨hl, hlive⟩,
      fun _ _ _ => ⟨f, hlive, hl⟩, fun _ => ⟨s, z, d, f, hlive, hl⟩, hoth⟩

/-- Witness for C12: two threads on the block at 16 with counter 2, under two
schedules that give each thread three turns; in each exactly one invocation,
the one whose decrement came second, frees the block. -/
theorem concurrent_dec_ref_frees_once_witness :
    ((16 : Nat) ≠ 0 ∧ 1 ≤ 2 ∧ 2 < INTEGER_MOD ∧
      (Heap.mk [(16, ⟨292, some ⟨2⟩⟩)] [HeapEvent.malloc 16 292]).find 16
        = some ⟨292, some ⟨2⟩⟩ ∧
      ∀ j, j < 2 → 3 ≤ List.count j [0, 1, 1, 0, 1, 0]) ∧
    interleave 16 [0, 1, 1, 0, 1, 0]
        (List.replicate 2 dec_ref_pc.start,
          ⟨[(16, ⟨292, some ⟨2⟩⟩)], [HeapEvent.malloc 16 292]⟩)
      = Except.ok ([dec_ref_pc.returned false, dec_ref_pc.returned true],
          ⟨[], [HeapEvent.free 16, HeapEvent.malloc 16 292]⟩) ∧
    interleave 16 [1, 0, 1, 0, 0, 1]
        (List.replicate 2 dec_ref_pc.start,
          ⟨[(16, ⟨292, some ⟨2⟩⟩)], [HeapEvent.malloc 16 292]⟩)
      = Except.ok ([dec_ref_pc.returned true, dec_ref_pc.returned false],
          ⟨[], [HeapEvent.free 16, HeapEvent.malloc 16 292]⟩) ∧
    ∃ ts h, interleave 16 [0, 1, 1, 0, 1, 0]
        (List.replicate 2 dec_ref_pc.start,
          ⟨[(16, ⟨292, some ⟨2⟩⟩)], [HeapEvent.malloc 16 292]⟩) = Except.ok (ts, h) ∧
      ts.length = 2 ∧ observers ts ≤ 1 ∧
      ts.count (dec_ref_pc.returned true) = 1 ∧ h.live 16 = false := by
  have hthree : ∀ j, j < 2 → 3 ≤ List.count j [0, 1, 1, 0, 1, 0] := by decide
  refine ⟨⟨by decide, by decide, by decide, by decide, hthree⟩, by decide, by decide, ?_⟩
  obtain ⟨ts, h, g1, g2, g3, _, _, _, _, _, g9, _⟩ := concurrent_dec_ref_frees_once 16 292 2
    ⟨[(16, ⟨292, some ⟨2⟩⟩)], [HeapEvent.malloc 16 292]⟩ [0, 1, 1, 0, 1, 0]
    (by decide) (by decide) (by decide) (by decide)
  obtain ⟨_, _, _, k4, k5, _⟩ := g9 hthree
  exact ⟨ts, h, g1, g2, g3, k4, k5⟩

end zmq
